import Mathlib

/-!
Verification of the OpenCap analysis core (gait and squat cycle segmentation
and scalar metric computation) against its natural-language specification.

The Python source operates on numpy float arrays; the embedding uses `List ℚ`
for 1-D signals, `Vec3` for marker trajectories, and an explicit square-root
function parameter `sqrtF : ℚ → ℚ` wherever numpy takes a real square root
(vector norms, standard deviations).  Peak detection models scipy.signal's
find_peaks: plateau-aware strict local maxima, the whole-signal prominence
computation, and the height and distance filters used by the squat segmenter.
All recursion is structural (fuel-based where the Python loop advances by a
computed amount), so every definition evaluates inside the kernel.
-/

namespace OpenCap

abbrev Sig := List ℚ

/-- min on ℚ written with an explicit if so that it reduces in the kernel. -/
def qmin (a b : ℚ) : ℚ := if a ≤ b then a else b

/-- max on ℚ written with an explicit if. -/
def qmax (a b : ℚ) : ℚ := if a ≤ b then b else a

/-- |q| written with an explicit if. -/
def qabs (q : ℚ) : ℚ := if q < 0 then -q else q

/-- Python list minimum (np.min); 0 on the empty list (numpy would error,
callers only use it on nonempty signals). -/
def listMin : Sig → ℚ
  | [] => 0
  | a :: t => t.foldl qmin a

/-- Python list maximum (np.max); 0 on the empty list. -/
def listMax : Sig → ℚ
  | [] => 0
  | a :: t => t.foldl qmax a

/-- Arithmetic mean (np.mean); division by zero yields 0 in ℚ where numpy
would produce nan. -/
def mean (l : Sig) : ℚ := l.sum / l.length

/-- np.diff of a 1-D signal: diff[i] = l[i+1] - l[i]. -/
def npDiff (l : Sig) : Sig := List.zipWith (fun a b => a - b) l.tail l

/-- Helper for argmaxList: track the current maximum and the index of its
first occurrence. -/
def argmaxAux : Sig → ℚ → Nat → Nat → Nat
  | [], _, _, best => best
  | a :: t, curMax, i, best =>
    if curMax < a then argmaxAux t a (i+1) i else argmaxAux t curMax (i+1) best

/-- np.argmax: index of the first occurrence of the maximum; 0 on empty. -/
def argmaxList : Sig → Nat
  | [] => 0
  | a :: t => argmaxAux t a 1 0

/-- Python slice l[a:b] for 0 ≤ a ≤ b. -/
def pySlice (l : List α) (a b : Nat) : List α := (l.take b).drop a

/-- Python slice l[i:] with a possibly negative start index (clamped at 0,
as Python does). -/
def pySliceFrom (l : List α) (i : ℤ) : List α :=
  if 0 ≤ i then l.drop i.toNat else l.drop (((l.length : ℤ) + i).toNat)

/-- np.round on a scalar: round half to even (banker's rounding). -/
def npRound (q : ℚ) : ℤ :=
  let f := ⌊q⌋
  let r := q - (f : ℚ)
  if r < 1/2 then f
  else if 1/2 < r then f + 1
  else if f % 2 = 0 then f else f + 1

/-- np.round(x, 6): banker's rounding at six decimal places. -/
def round6 (q : ℚ) : ℚ := ((npRound (q * 1000000) : ℤ) : ℚ) / 1000000

/-- np.allclose(a, b, atol, rtol=0): same length and elementwise
|a - b| ≤ atol. -/
def allclose_atol (a b : Sig) (atol : ℚ) : Bool :=
  a.length == b.length && (a.zip b).all (fun p => qabs (p.1 - p.2) ≤ atol)

/-- np.std: population standard deviation, with the square root abstracted
by sqrtF. -/
def npStd (sqrtF : ℚ → ℚ) (l : Sig) : ℚ :=
  sqrtF (mean (l.map (fun v => (v - mean l) * (v - mean l))))

/-! ### scipy.signal find_peaks model

Local maxima with plateau handling, following scipy's _local_maxima_1d:
scan i from 1, when x[i-1] < x[i] look ahead past the plateau of equal
values; if the signal then drops, record the plateau midpoint. -/

/-- Advance past a plateau of value v: first index j ≥ start with j ≥ iMax
or x[j] ≠ v (fuel-bounded scan). -/
def scanPlateau (x : Sig) (iMax : Nat) (v : ℚ) : Nat → Nat → Nat
  | 0, j => j
  | fuel+1, j =>
    if j < iMax ∧ x.getD j 0 = v then scanPlateau x iMax v fuel (j+1) else j

/-- Core scan of _local_maxima_1d from index i (fuel-bounded). -/
def localMaxAux (x : Sig) (iMax : Nat) : Nat → Nat → List Nat
  | 0, _ => []
  | fuel+1, i =>
    if i < iMax then
      if x.getD (i-1) 0 < x.getD i 0 then
        let iAhead := scanPlateau x iMax (x.getD i 0) iMax (i+1)
        if x.getD iAhead 0 < x.getD i 0 then
          (i + (iAhead - 1)) / 2 :: localMaxAux x iMax fuel (iAhead + 1)
        else
          localMaxAux x iMax fuel (i+1)
      else
        localMaxAux x iMax fuel (i+1)
    else []

/-- All (plateau-midpoint) local maxima of a signal, in increasing order. -/
def localMaxima (x : Sig) : List Nat := localMaxAux x (x.length - 1) x.length 1

/-- Left arm of scipy's _peak_prominences: walk left from i while
x[i] ≤ x[p], tracking the running minimum. -/
def promLeft (x : Sig) (xp : ℚ) : Nat → ℚ → ℚ
  | 0, cur => if x.getD 0 0 ≤ xp then qmin cur (x.getD 0 0) else cur
  | i+1, cur =>
    if x.getD (i+1) 0 ≤ xp then promLeft x xp i (qmin cur (x.getD (i+1) 0)) else cur

/-- Right arm of _peak_prominences (fuel-bounded): walk right from i while
i ≤ n-1 and x[i] ≤ x[p]. -/
def promRight (x : Sig) (xp : ℚ) : Nat → Nat → ℚ → ℚ
  | 0, _, cur => cur
  | fuel+1, i, cur =>
    if i ≤ x.length - 1 ∧ x.getD i 0 ≤ xp then
      promRight x xp fuel (i+1) (qmin cur (x.getD i 0))
    else cur

/-- Prominence of the peak at index p (whole-signal window, wlen unset). -/
def prominence (x : Sig) (p : Nat) : ℚ :=
  let xp := x.getD p 0
  xp - qmax (promLeft x xp p xp) (promRight x xp x.length p xp)

/-- find_peaks(x, prominence=prom): local maxima whose prominence is ≥ prom. -/
def findPeaksProm (x : Sig) (prom : ℚ) : List Nat :=
  (localMaxima x).filter (fun p => decide (prom ≤ prominence x p))

/-- Height filter of find_peaks: keep peaks with x[p] ≥ hmin. -/
def selectByHeight (x : Sig) (peaks : List Nat) (hmin : ℚ) : List Nat :=
  peaks.filter (fun p => decide (hmin ≤ x.getD p 0))

/-- Stable insertion of a position into a list sorted ascending by key
(ties keep the earlier-inserted element first). -/
def insertByKey (key : Nat → ℚ) (p : Nat) : List Nat → List Nat
  | [] => [p]
  | q :: t => if key q < key p then q :: insertByKey key p t else p :: q :: t

/-- Stable ascending sort of positions by key (scipy sorts peak positions by
height to process the highest-priority peaks first; numpy's argsort tie order
is unspecified, this model uses the stable order). -/
def sortByKey (key : Nat → ℚ) : List Nat → List Nat
  | [] => []
  | p :: t => insertByKey key p (sortByKey key t)

/-- One pass of _select_by_peak_distance: peak at position j survives, clear
every other position whose peak lies strictly closer than dist.  Because the
peak list is sorted, this predicate form equals scipy's two directional while
loops. -/
def clearNear (peaks : List Nat) (dist : ℚ) (j : Nat) (keep : List Bool) : List Bool :=
  (List.range peaks.length).map (fun k =>
    if k ≠ j ∧ qabs (((peaks.getD k 0 : ℤ) : ℚ) - ((peaks.getD j 0 : ℤ) : ℚ)) < dist then false
    else keep.getD k true)

/-- Process positions from highest to lowest priority, accumulating the keep
mask. -/
def distLoop (peaks : List Nat) (dist : ℚ) : List Nat → List Bool → List Bool
  | [], keep => keep
  | j :: rest, keep =>
    if keep.getD j true then distLoop peaks dist rest (clearNear peaks dist j keep)
    else distLoop peaks dist rest keep

/-- Keep the elements of l whose mask entry is true. -/
def maskFilter : List Nat → List Bool → List Nat
  | [], _ => []
  | _ :: _, [] => []
  | a :: l, b :: m => if b then a :: maskFilter l m else maskFilter l m

/-- _select_by_peak_distance: remove peaks closer than ⌈dist⌉ to a
higher-priority (higher) surviving peak. -/
def selectByDistance (x : Sig) (peaks : List Nat) (dist : ℚ) : List Nat :=
  let distC : ℚ := ((⌈dist⌉ : ℤ) : ℚ)
  let order := (sortByKey (fun p => x.getD p 0) (List.range peaks.length)).reverse
  let keep := distLoop peaks distC order (List.replicate peaks.length true)
  maskFilter peaks keep

/-- find_peaks(x, distance=dist, height=hmin): scipy applies the height
filter before the distance filter; distance < 1 is a ValueError checked by
the caller model. -/
def findPeaksDistHeight (x : Sig) (dist hmin : ℚ) : List Nat :=
  selectByDistance x (selectByHeight x (localMaxima x) hmin) dist

/-! ### Squat segmentation (squat_analysis.segment_squat) -/

structure SquatEvents where
  eventIdxs : List (Nat × Nat)
  eventTimes : List (ℚ × ℚ)
  eventNames : List String
deriving DecidableEq, Repr

/-- argmax of sig over [a, b) plus the offset a (np.argmax of a slice). -/
def argmaxRange (sig : Sig) (a b : Nat) : Nat := argmaxList (pySlice sig a b) + a

/-- The start/end pair construction of segment_squat: for each detected
minimum, start = argmax of the positive pelvis signal since the previous
minimum (or trial start), end = argmax up to the next minimum (or trial
end). -/
def buildStartEnd (sigPos : Sig) (old : Nat) : List Nat → List (Nat × Nat)
  | [] => []
  | m :: rest =>
    let nxt := match rest with
      | [] => sigPos.length
      | m2 :: _ => m2
    (argmaxRange sigPos old m, argmaxRange sigPos m nxt) :: buildStartEnd sigPos m rest

/-- Mean sampling interval dt = np.mean(np.diff(time)). -/
def dtOf (time : Sig) : ℚ := mean (npDiff time)

/-- The inverted pelvis signal fed to find_peaks. -/
def pelvSignalOf (pelvis_ty : Sig) : Sig :=
  let n := pelvis_ty.map (fun v => -v)
  n.map (fun v => v - listMin n)

/-- The positive pelvis signal used for the argmax searches. -/
def pelvSignalPosOf (pelvis_ty : Sig) : Sig :=
  pelvis_ty.map (fun v => v - listMin pelvis_ty)

/-- Minimum inter-peak distance in frames, 0.7 s / dt. -/
def squatDistance (time : Sig) : ℚ := (7/10) / dtOf time

/-- The detected pelvis-height minima of a squat trial. -/
def squatMinima (time pelvis_ty : Sig) (height_value : ℚ) : List Nat :=
  findPeaksDistHeight (pelvSignalOf pelvis_ty) (squatDistance time) height_value

/-- segment_squat.  Errors: scipy rejects distance < 1 with a ValueError;
and when the (possibly truncated) start/end list is empty, np.array of the
empty list has float dtype, so indexing self.time with it raises an
IndexError — there is no explicit repetition-count check in the source. -/
def segment_squat (time pelvis_ty : Sig) (n_repetitions : ℤ)
    (height_value : ℚ) : Except String SquatEvents :=
  if squatDistance time < 1 then
    .error "ValueError: distance must be greater or equal to 1"
  else
    let idxMin := squatMinima time pelvis_ty height_value
    let startEndIdxs := buildStartEnd (pelvSignalPosOf pelvis_ty) 0 idxMin
    let truncated := if n_repetitions ≠ -1 then pySliceFrom startEndIdxs (-n_repetitions)
      else startEndIdxs
    match truncated with
    | [] => .error "IndexError: arrays used as indices must be of integer or boolean type"
    | l =>
      .ok { eventIdxs := l,
            eventTimes := l.map (fun p => (time.getD p.1 0, time.getD p.2 0)),
            eventNames := ["repStart", "repEnd"] }

/-! ### Gait event streams and the order check (gait_analysis.segment_walking)

detect_correct_order repeatedly extracts the stream whose head index is
smallest (ties resolved by the insertion order of the Python dict:
rHS, rTO, lHS, lTO) and demands that the extracted stream names follow the
physiological cycle rHS → lTO → lHS → rTO → rHS. -/

inductive GName where
  | rHS
  | rTO
  | lHS
  | lTO
deriving DecidableEq, Repr

/-- Position of a stream in the Python dict iteration order, which decides
min() ties. -/
def nameRank : GName → Nat
  | .rHS => 0
  | .rTO => 1
  | .lHS => 2
  | .lTO => 3

/-- The expectedOrder mapping of detect_correct_order. -/
def expectedNext : GName → GName
  | .rHS => .lTO
  | .lTO => .lHS
  | .lHS => .rTO
  | .rTO => .rHS

structure GStreams where
  rHS : List Nat
  rTO : List Nat
  lHS : List Nat
  lTO : List Nat
deriving DecidableEq, Repr

def GStreams.get (s : GStreams) : GName → List Nat
  | .rHS => s.rHS
  | .rTO => s.rTO
  | .lHS => s.lHS
  | .lTO => s.lTO

/-- np.delete(vectors[vName1], 0). -/
def popHead (s : GStreams) : GName → GStreams
  | .rHS => { s with rHS := s.rHS.tail }
  | .rTO => { s with rTO := s.rTO.tail }
  | .lHS => { s with lHS := s.lHS.tail }
  | .lTO => { s with lTO := s.lTO.tail }

def totalLen (s : GStreams) : Nat :=
  s.rHS.length + s.rTO.length + s.lHS.length + s.lTO.length

/-- The (name, head) candidate of one stream, if nonempty. -/
def cand (s : GStreams) (n : GName) : Option (GName × Nat) :=
  match s.get n with
  | [] => none
  | h :: _ => some (n, h)

/-- Keep the candidate with the smaller head; ties keep the left (earlier in
dict order) candidate, matching Python's min over dict keys. -/
def pick : Option (GName × Nat) → Option (GName × Nat) → Option (GName × Nat)
  | none, b => b
  | some a, none => some a
  | some a, some b => if b.2 < a.2 then some b else some a

/-- min(non_empty_vectors, key=head) with its value, in dict order. -/
def minCand (s : GStreams) : Option (GName × Nat) :=
  pick (pick (pick (cand s .rHS) (cand s .rTO)) (cand s .lHS)) (cand s .lTO)

/-- The while loop of detect_correct_order: pop the head of v1, find the
stream with the next smallest head; all empty means success, a stream other
than expectedOrder[v1] means failure.  Fuel is the total element count. -/
def dcoLoop : Nat → GStreams → GName → Bool
  | 0, _, _ => true
  | fuel+1, s, v1 =>
    let s2 := popHead s v1
    match minCand s2 with
    | none => true
    | some r2 => if r2.1 = expectedNext v1 then dcoLoop fuel s2 r2.1 else false

def detect_correct_order (s : GStreams) : Bool :=
  match minCand s with
  | none => true
  | some r => dcoLoop (totalLen s) s r.1

/-- detect_gait_peaks: heel strikes are peaks of the calcaneus signals, toe
offs are peaks of the negated toe signals. -/
def detect_gait_peaks (r_calc_rel_x l_calc_rel_x r_toe_rel_x l_toe_rel_x : Sig)
    (prom : ℚ) : GStreams :=
  { rHS := findPeaksProm r_calc_rel_x prom
    lHS := findPeaksProm l_calc_rel_x prom
    rTO := findPeaksProm (r_toe_rel_x.map (fun v => -v)) prom
    lTO := findPeaksProm (l_toe_rel_x.map (fun v => -v)) prom }

def prominenceCandidates : List ℚ := [3/10, 1/4, 1/5]

/-- The prominence back-off loop of segment_walking: detect peaks, accept the
first prominence whose streams pass the order check; the Python code raises
exactly when the last candidate (0.2, the values are distinct so comparing
with prominences[-1] equals being last) still fails. -/
def gaitDetectLoop (rc lc rt lt : Sig) : List ℚ → Except String GStreams
  | [] => .error "empty prominence list"
  | p :: rest =>
    let s := detect_gait_peaks rc lc rt lt p
    if detect_correct_order s then .ok s
    else
      match rest with
      | [] => .error "The ordering of gait events is not correct. Consider trimming your trial using the trimming_start and trimming_end options."
      | _ :: _ => gaitDetectLoop rc lc rt lt rest

/-! ### The extraction sequence of detect_correct_order

The while loop of detect_correct_order repeatedly removes the (head, dict
order)-smallest stream head; mergeSeq records that extraction sequence
together with the extracted values, which lets the order check be related to
the sorted interleaving of the four peak streams. -/

def mergeSeq : Nat → GStreams → List (GName × Nat)
  | 0, _ => []
  | fuel+1, s =>
    match minCand s with
    | none => []
    | some r => r :: mergeSeq fuel (popHead s r.1)

/-- The subsequence of extracted values belonging to one stream. -/
def projE (n : GName) (E : List (GName × Nat)) : List Nat :=
  E.filterMap (fun e => if e.1 = n then some e.2 else none)

/-- Strict lexicographic order on extracted events: smaller value, or equal
value and earlier dict rank. -/
def lexLt (a b : GName × Nat) : Prop :=
  a.2 < b.2 ∨ (a.2 = b.2 ∧ nameRank a.1 < nameRank b.1)

/-- Adjacent extractions follow the expected physiological cycle. -/
def nameStep (a b : GName × Nat) : Prop := b.1 = expectedNext a.1

/-- Between consecutive entries of xs there is an element of ys, strictly. -/
def chainBetween (xs ys : List Nat) : Prop :=
  ∀ k, k + 1 < xs.length → ∃ v ∈ ys, xs.getD k 0 < v ∧ v < xs.getD (k+1) 0

/-! ### Backward cycle construction of segment_walking -/

abbrev GaitRow := (ℤ × ℤ × ℤ) × (ℤ × ℤ)

/-- The reverse scans of segment_walking: first element, iterating from the
end of the list, lying strictly inside (a, b). -/
def findInWindow (l : List Nat) (a b : ℤ) : Option Nat :=
  l.reverse.find? (fun v => decide (a < (v : ℤ) ∧ (v : ℤ) < b))

/-- One gait cycle, i steps back from the trial end.  Missing contralateral
events mark the whole row -1 (the numpy rows start as zeros, so a missing
ipsilateral toe-off leaves 0 in the middle slot without invalidating the
row — exactly as in the source). -/
def buildRow (hsIps toIps hsCont toCont : List Nat) (L i : Nat) : GaitRow :=
  let hs1 : ℤ := (hsIps.getD (L - i - 2) 0 : ℕ)
  let hs2 : ℤ := (hsIps.getD (L - i - 1) 0 : ℕ)
  let toI := findInWindow toIps hs1 hs2
  let toC := findInWindow toCont hs1 hs2
  let hsC := findInWindow hsCont hs1 hs2
  match toC, hsC with
  | some tcv, some hcv =>
    ((hs1, (toI.map (fun v => (v : ℤ))).getD 0, hs2), ((tcv : ℤ), (hcv : ℤ)))
  | _, _ => ((-1, -1, -1), (-1, -1))

/-- The mask (gaitEvents_ips == -1).any(axis=1) of one row. -/
def rowDropped (r : GaitRow) : Bool :=
  r.1.1 == -1 || r.1.2.1 == -1 || r.1.2.2 == -1

/-- The n_gait_cycles adjustment: clamp to len(hsIps)-1 when more cycles are
requested than available, and -1 requests all available. -/
def gaitNEff (L : ℕ) (n : ℤ) : ℤ :=
  let n1 := if (L : ℤ) - 1 < n then (L : ℤ) - 1 else n
  if n1 = -1 then (L : ℤ) - 1 else n1

def gaitRows (hsIps toIps hsCont toCont : List Nat) (nEff : ℕ) : List GaitRow :=
  (List.range nEff).map (buildRow hsIps toIps hsCont toCont hsIps.length)

def gaitKept (hsIps toIps hsCont toCont : List Nat) (nEff : ℕ) : List GaitRow :=
  (gaitRows hsIps toIps hsCont toCont nEff).filter (fun r => !(rowDropped r))

structure GaitEvents where
  ipsilateralIdx : List (ℤ × ℤ × ℤ)
  contralateralIdx : List (ℤ × ℤ)
  ipsilateralTime : List (ℚ × ℚ × ℚ)
  contralateralTime : List (ℚ × ℚ)
  ipsilateralLeg : String
deriving DecidableEq, Repr

def timeAt (time : Sig) (i : ℤ) : ℚ := time.getD i.toNat 0

/-- Cycle building, masking and time conversion of segment_walking, after
peak detection and leg selection.  A negative adjusted count is numpy's
ValueError from np.zeros((n,3)) (raised before the explicit < 1 check); the
kept rows being empty is the "No good steps" exception. -/
def segment_core (hsIps toIps hsCont toCont : List Nat) (time : Sig) (n : ℤ)
    (leg : String) : Except String GaitEvents :=
  let nEff := gaitNEff hsIps.length n
  if nEff < 0 then .error "ValueError: negative dimensions are not allowed"
  else if nEff < 1 then .error "Not enough gait cycles found."
  else
    let kept := gaitKept hsIps toIps hsCont toCont nEff.toNat
    if kept.isEmpty then .error ("No good steps for " ++ leg ++ " leg.")
    else
      .ok { ipsilateralIdx := kept.map (fun r => r.1)
            contralateralIdx := kept.map (fun r => r.2)
            ipsilateralTime := kept.map (fun r =>
              (timeAt time r.1.1, timeAt time r.1.2.1, timeAt time r.1.2.2))
            contralateralTime := kept.map (fun r =>
              (timeAt time r.2.1, timeAt time r.2.2))
            ipsilateralLeg := leg }

/-- segment_walking on the four projected 1-D signals: detect peaks with
back-off, select the leg (auto picks the later last heel strike; indexing
an empty peak array raises), then build cycles backward. -/
def segment_walking_signals (rc lc rt lt time : Sig) (n : ℤ) (leg : String) :
    Except String GaitEvents := do
  let s ← gaitDetectLoop rc lc rt lt prominenceCandidates
  let legSel ←
    (if leg = "auto" then
      match s.rHS.getLast?, s.lHS.getLast? with
      | some r, some l => Except.ok (if l < r then "r" else "l")
      | _, _ => Except.error "IndexError: index -1 is out of bounds for axis 0 with size 0"
    else Except.ok leg)
  if legSel = "r" then segment_core s.rHS s.rTO s.lHS s.lTO time n "r"
  else if legSel = "l" then segment_core s.lHS s.lTO s.rHS s.rTO time n "l"
  else .error "UnboundLocalError: local variable hsIps referenced before assignment"

/-! ### Marker-level wrapper: heading projection of segment_walking -/

structure Vec3 where
  x : ℚ
  y : ℚ
  z : ℚ
deriving DecidableEq, Repr

def vadd (a b : Vec3) : Vec3 := ⟨a.x + b.x, a.y + b.y, a.z + b.z⟩

def vsub (a b : Vec3) : Vec3 := ⟨a.x - b.x, a.y - b.y, a.z - b.z⟩

def vsmul (c : ℚ) (a : Vec3) : Vec3 := ⟨c * a.x, c * a.y, c * a.z⟩

def vdot (a b : Vec3) : ℚ := a.x * b.x + a.y * b.y + a.z * b.z

def vcross (a b : Vec3) : Vec3 :=
  ⟨a.y * b.z - a.z * b.y, a.z * b.x - a.x * b.z, a.x * b.y - a.y * b.x⟩

def norm3 (sqrtF : ℚ → ℚ) (v : Vec3) : ℚ := sqrtF (vdot v v)

def vnormalize (sqrtF : ℚ → ℚ) (v : Vec3) : Vec3 := vsmul (1 / norm3 sqrtF v) v

def meanV (l : List Vec3) : Vec3 :=
  vsmul (1 / (l.length : ℚ)) (l.foldl vadd ⟨0, 0, 0⟩)

/-- The marker trajectories used by the gait analysis (markerDict). -/
structure MarkerSet where
  time : Sig
  r_calc : List Vec3
  L_calc : List Vec3
  r_toe : List Vec3
  L_toe : List Vec3
  r_PSIS : List Vec3
  L_PSIS : List Vec3
  r_ASIS : List Vec3
  L_ASIS : List Vec3
  r_ankle : List Vec3
  L_ankle : List Vec3
deriving DecidableEq, Repr

/-- The per-frame floor-projected heading unit vector and the four
anterior-posterior foot signals of segment_walking. -/
def projSignals (sqrtF : ℚ → ℚ) (m : MarkerSet) : Sig × Sig × Sig × Sig :=
  let midPsis := List.zipWith (fun a b => vsmul (1/2) (vadd a b)) m.r_PSIS m.L_PSIS
  let midAsis := List.zipWith (fun a b => vsmul (1/2) (vadd a b)) m.r_ASIS m.L_ASIS
  let dirFloor := List.zipWith (fun a p =>
    let d := vsub a p
    vnormalize sqrtF ⟨d.x, 0, d.z⟩) midAsis midPsis
  (List.zipWith vdot dirFloor (List.zipWith vsub m.r_calc m.r_PSIS),
   List.zipWith vdot dirFloor (List.zipWith vsub m.L_calc m.L_PSIS),
   List.zipWith vdot dirFloor (List.zipWith vsub m.r_toe m.r_PSIS),
   List.zipWith vdot dirFloor (List.zipWith vsub m.L_toe m.L_PSIS))

/-- gait_analysis.segment_walking. -/
def segment_walking (sqrtF : ℚ → ℚ) (m : MarkerSet) (n : ℤ) (leg : String) :
    Except String GaitEvents :=
  let sigs := projSignals sqrtF m
  segment_walking_signals sigs.1 sigs.2.1 sigs.2.2.1 sigs.2.2.2 m.time n leg

/-! ### Treadmill speed heuristic (compute_treadmill_speed) -/

/-- Frame window of the middle of stance: np.round(hs + 0.1*stance) to
np.round(to - 0.3*stance), with stance = to - hs (np.round of an integer
difference). -/
def stanceWindow (r : ℤ × ℤ × ℤ) : ℤ × ℤ :=
  let stanceLen : ℚ := ((r.2.1 - r.1 : ℤ) : ℚ)
  (npRound ((r.1 : ℚ) + (1/10) * stanceLen), npRound ((r.2.1 : ℚ) - (3/10) * stanceLen))

/-- Mean instantaneous foot speed in one stance window:
norm(mean(diff(foot[start:end]))/dt). -/
def cycleFootSpeed (sqrtF : ℚ → ℚ) (foot : List Vec3) (dt : ℚ) (r : ℤ × ℤ × ℤ) : ℚ :=
  let w := stanceWindow r
  let seg := pySlice foot w.1.toNat w.2.toNat
  let diffs := List.zipWith vsub seg.tail seg
  norm3 sqrtF (vsmul (1 / dt) (meanV diffs))

/-- Per-cycle stance foot speeds averaged over cycles; dt is
np.diff(time[:2])[0]. -/
def measuredTreadmillSpeed (sqrtF : ℚ → ℚ) (foot : List Vec3) (time : Sig)
    (ips : List (ℤ × ℤ × ℤ)) : ℚ :=
  let dt := time.getD 1 0 - time.getD 0 0
  mean (ips.map (cycleFootSpeed sqrtF foot dt))

/-- compute_treadmill_speed (default return path).  A gait_style other than
auto/treadmill/overground leaves Python's treadmillSpeed unbound. -/
def compute_treadmill_speed (sqrtF : ℚ → ℚ) (foot : List Vec3) (time : Sig)
    (ips : List (ℤ × ℤ × ℤ)) (gait_style : String)
    (overground_speed_threshold : ℚ) : Except String ℚ :=
  if gait_style = "auto" ∨ gait_style = "treadmill" then
    let v := measuredTreadmillSpeed sqrtF foot time ips
    Except.ok (if v < overground_speed_threshold ∧ ¬gait_style = "treadmill" then 0 else v)
  else if gait_style = "overground" then Except.ok 0
  else Except.error "NameError: name treadmillSpeed is not defined"

/-! ### Support-time metrics -/

/-- Per-cycle double support percentage:
(ipsilateral stance time - contralateral swing time) / cycle time * 100. -/
def doubleSupportTimes (ev : GaitEvents) : List ℚ :=
  (ev.ipsilateralTime.zip ev.contralateralTime).map (fun p =>
    ((p.1.2.1 - p.1.1) - (p.2.2 - p.2.1)) / (p.1.2.2 - p.1.1) * 100)

/-- Per-cycle single support percentage: 100 - double support. -/
def singleSupportTimes (ev : GaitEvents) : List ℚ :=
  (doubleSupportTimes ev).map (fun d => 100 - d)

/-- Observable Python return values of the metric calculators. -/
inductive PyVal where
  | num (q : ℚ)
  | str (s : String)
  | arr (l : List ℚ)
deriving DecidableEq, Repr

def compute_double_support_time (ev : GaitEvents) (return_all : Bool) : List PyVal :=
  if return_all then [.arr (doubleSupportTimes ev), .str "%"]
  else [.num (mean (doubleSupportTimes ev)), .str "%"]

def compute_single_support_time (ev : GaitEvents) (return_all : Bool) : List PyVal :=
  if return_all then [.arr (singleSupportTimes ev), .str "%"]
  else [.num (mean (singleSupportTimes ev)), .str "%"]

/-! ### Stride length (gait) and peak angle (squat) calculators -/

def strideLengthsOf (calcPos : List Vec3) (ev : GaitEvents) (treadmillSpeed : ℚ) : List ℚ :=
  (ev.ipsilateralIdx.zip ev.ipsilateralTime).map (fun p =>
    -(calcPos.getD p.1.1.toNat ⟨0, 0, 0⟩).x + (calcPos.getD p.1.2.2.toNat ⟨0, 0, 0⟩).x
      + treadmillSpeed * (p.2.2.2 - p.2.1))

/-- gait_analysis.compute_stride_length: default returns (mean, units), the
return_all variant (per-cycle array, units) — the gait class reports no
standard deviation. -/
def compute_stride_length (calcPos : List Vec3) (ev : GaitEvents) (treadmillSpeed : ℚ)
    (return_all : Bool) : List PyVal :=
  if return_all then [.arr (strideLengthsOf calcPos ev treadmillSpeed), .str "m"]
  else [.num (mean (strideLengthsOf calcPos ev treadmillSpeed)), .str "m"]

def lookupCoord (coords : List (String × Sig)) (c : String) : Option Sig :=
  (coords.find? (fun p => p.1 == c)).map (fun p => p.2)

/-- Per-repetition peak extraction; the peak_type validation happens inside
the per-repetition loop, exactly as in the source. -/
def peakOfRep (sig : Sig) (peak_type : String) (p : Nat × Nat) : Except String ℚ :=
  if peak_type = "maximum" then .ok (listMax (pySlice sig p.1 (p.2 + 1)))
  else if peak_type = "minimum" then .ok (listMin (pySlice sig p.1 (p.2 + 1)))
  else .error "peak_type must be \"maximum\" or \"minimum\"."

/-- squat_analysis.compute_peak_angle: default returns (mean, std, units),
return_all returns (per-repetition array, units). -/
def compute_peak_angle (sqrtF : ℚ → ℚ) (coords : List (String × Sig)) (ev : SquatEvents)
    (coordinate peak_type : String) (return_all : Bool) : Except String (List PyVal) :=
  match lookupCoord coords coordinate with
  | none => .error (coordinate ++ " does not exist in coordinate values. Verify the name of the coordinate.")
  | some sig => do
    let peaks ← ev.eventIdxs.mapM (peakOfRep sig peak_type)
    if return_all then pure [.arr peaks, .str "deg"]
    else pure [.num (mean peaks), .num (npStd sqrtF peaks), .str "deg"]

/-! ### compute_scalars dispatch (shared by the gait and squat classes; the
squat copy even reuses the 'gait_analysis class' message) -/

inductive ScalarsOutcome where
  | info (methods : List String)
  | err (msg : String)
  | results (vals : List (String × (ℚ × String)))
deriving DecidableEq, Repr

def containsSub (needle hay : String) : Bool := decide (needle.data <:+: hay.data)

/-- Methods whose name contains 'compute_', as printed for scalarNames=None. -/
def possibleMethodsOf (method_names : List String) : List String :=
  method_names.filter (fun m => containsSub "compute_" m)

/-- ", ".join. -/
def joinComma : List String → String
  | [] => ""
  | [a] => a
  | a :: b :: t => a ++ ", " ++ joinComma (b :: t)

/-- Python's str() of a list of strings. -/
def pyStrList (l : List String) : String :=
  "[" ++ joinComma (l.map (fun a => "\x27" ++ a ++ "\x27")) ++ "]"

/-- Requested scalar names with no compute_ method. -/
def unknownScalars (method_names names : List String) : List String :=
  names.filter (fun e => !(method_names.contains ("compute_" ++ e)))

/-- compute_scalars: None prints the available methods and returns None;
unknown names raise an Exception naming the missing compute_ methods; known
names dispatch to the per-metric calculators (abstracted by evalScalar). -/
def compute_scalars (method_names : List String) (evalScalar : String → ℚ × String)
    (scalarNames : Option (List String)) : ScalarsOutcome :=
  match scalarNames with
  | none => .info (possibleMethodsOf method_names)
  | some names =>
    let nonexistant := unknownScalars method_names names
    if nonexistant.isEmpty then .results (names.map (fun n => (n, evalScalar n)))
    else .err (pyStrList (nonexistant.map (fun a => "compute_" ++ a))
      ++ " does not exist in gait_analysis class.")

/-- Methods visible on gait_analysis in this repository (dir() additionally
reports inherited kinematics methods and dunders, none of which contain
'compute_' among the names referenced by this repository). -/
def gaitMethodNames : List String :=
  ["comValues", "R_world_to_gait", "get_gait_events", "rotate_x_forward",
   "leg_length", "compute_scalars", "compute_stride_length", "compute_step_length",
   "compute_step_length_symmetry", "compute_gait_speed", "compute_cadence",
   "compute_treadmill_speed", "compute_step_width", "compute_stance_time",
   "compute_swing_time", "compute_single_support_time", "compute_double_support_time",
   "compute_midswing_dorsiflexion_angle", "compute_midswing_ankle_heigh_dif",
   "compute_peak_angle", "compute_rom", "compute_correlations", "compute_gait_frame",
   "rotate_vector_into_gait_frame", "get_leg", "get_coordinates_normalized_time",
   "segment_walking"]

/-- Methods visible on squat_analysis in this repository. -/
def squatMethodNames : List String :=
  ["comValues", "get_squat_events", "compute_scalars", "segment_squat",
   "compute_peak_angle", "compute_ratio_peak_angle", "compute_range_of_motion",
   "get_coordinates_segmented", "get_center_of_mass_values_segmented",
   "get_coordinates_segmented_normalized_time",
   "get_center_of_mass_segmented_normalized_time"]

/-! ### Gait frame construction and per-cycle marker rotation -/

structure Mat3 where
  colx : Vec3
  coly : Vec3
  colz : Vec3
deriving DecidableEq, Repr

/-- np.dot(vec, R): components of vec along the three columns. -/
def matApply (R : Mat3) (v : Vec3) : Vec3 := ⟨vdot v R.colx, vdot v R.coly, vdot v R.colz⟩

def getV (l : List Vec3) (i : ℤ) : Vec3 := l.getD i.toNat ⟨0, 0, 0⟩

/-- compute_gait_frame: per cycle, forward axis from pelvis-center (overground)
or ankle (treadmill) displacement, mediolateral seed from the mean ASIS
vector, vertical and final mediolateral axes by cross products. -/
def compute_gait_frame (sqrtF : ℚ → ℚ) (m : MarkerSet) (ev : GaitEvents)
    (treadmillSpeed : ℚ) : List Mat3 :=
  let pelvisCenter := List.zipWith (fun a b => vsmul (1/4) (vadd a b))
    (List.zipWith vadd m.r_ASIS m.L_ASIS) (List.zipWith vadd m.r_PSIS m.L_PSIS)
  let anklePos := if ev.ipsilateralLeg = "l" then m.L_ankle else m.r_ankle
  let asisVector := List.zipWith vsub m.r_ASIS m.L_ASIS
  ev.ipsilateralIdx.map (fun r =>
    let x := if treadmillSpeed = 0 then
        vnormalize sqrtF (vsub (getV pelvisCenter r.2.2) (getV pelvisCenter r.1))
      else
        vnormalize sqrtF (vsub (getV anklePos r.2.2) (getV anklePos r.2.1))
    let zTemp := vnormalize sqrtF (meanV (pySlice asisVector r.1.toNat r.2.2.toNat))
    let y := vcross zTemp x
    let z := vcross x y
    { colx := x, coly := y, colz := z })

/-- Rotate the frames of one cycle window [hs1, hs2); windows of cycles built
backward from the trial end are disjoint half-open intervals. -/
def applyCycleRotation (R : Mat3) (a c : ℕ) (l : List Vec3) : List Vec3 :=
  l.mapIdx (fun j v => if a ≤ j ∧ j < c then matApply R v else v)

def rotateMarkerList (gfs : List Mat3) (rows : List (ℤ × ℤ × ℤ)) (l : List Vec3) :
    List Vec3 :=
  (gfs.zip rows).foldl (fun cur p => applyCycleRotation p.1 p.2.1.toNat p.2.2.2.toNat cur) l

/-- rotate_vector_into_gait_frame applied to the whole marker dictionary. -/
def rotateMarkers (gfs : List Mat3) (rows : List (ℤ × ℤ × ℤ)) (m : MarkerSet) : MarkerSet :=
  { time := m.time
    r_calc := rotateMarkerList gfs rows m.r_calc
    L_calc := rotateMarkerList gfs rows m.L_calc
    r_toe := rotateMarkerList gfs rows m.r_toe
    L_toe := rotateMarkerList gfs rows m.L_toe
    r_PSIS := rotateMarkerList gfs rows m.r_PSIS
    L_PSIS := rotateMarkerList gfs rows m.L_PSIS
    r_ASIS := rotateMarkerList gfs rows m.r_ASIS
    L_ASIS := rotateMarkerList gfs rows m.L_ASIS
    r_ankle := rotateMarkerList gfs rows m.r_ankle
    L_ankle := rotateMarkerList gfs rows m.L_ankle }

/-! ### Construction (the __init__ methods) -/

/-- np.where(np.round(time - ts, 6) <= 0)[0][-1]: last frame at or before the
requested start. -/
def trimIdxStart (time : Sig) (ts : ℚ) : Option ℕ :=
  ((List.range time.length).filter (fun i => decide (round6 (time.getD i 0 - ts) ≤ 0))).getLast?

/-- np.where(np.round(time,6) <= np.round(time[-1] - te, 6))[0][-1] + 1. -/
def trimIdxEnd (time : Sig) (te : ℚ) : Option ℕ :=
  (((List.range time.length).filter (fun i =>
    decide (round6 (time.getD i 0) ≤ round6 (time.getD (time.length - 1) 0 - te)))).getLast?).map
    (fun i => i + 1)

/-- Trim a (time, signal) pair by the requested start/end durations. -/
def trimPair (time sig : Sig) (ts te : ℚ) : Except String (Sig × Sig) := do
  let p1 ←
    (if 0 < ts then
      match trimIdxStart time ts with
      | none => Except.error "IndexError: index -1 is out of bounds for axis 0 with size 0"
      | some i => Except.ok (time.drop i, sig.drop i)
    else Except.ok (time, sig))
  if 0 < te then
    match trimIdxEnd p1.1 te with
    | none => Except.error "IndexError: index -1 is out of bounds for axis 0 with size 0"
    | some j => Except.ok (p1.1.take j, p1.2.take j)
  else Except.ok p1

structure SquatObj where
  squatEvents : SquatEvents
  nRepetitions : ℕ
deriving DecidableEq, Repr

/-- squat_analysis.__init__: the time-base consistency check
(np.allclose with atol=0.001) runs before trimming and before
segment_squat. -/
def squat_init (markerTime coordTime pelvis_ty : Sig) (n_repetitions : ℤ)
    (trimming_start trimming_end : ℚ) : Except String SquatObj :=
  if !(allclose_atol markerTime coordTime (1/1000)) then
    .error "Time vectors of marker and coordinate data are not the same."
  else do
    let p ← trimPair markerTime pelvis_ty trimming_start trimming_end
    let ev ← segment_squat p.1 p.2 n_repetitions (2/10)
    .ok { squatEvents := ev, nRepetitions := ev.eventIdxs.length }

def MarkerSet.dropFrames (m : MarkerSet) (i : ℕ) : MarkerSet :=
  { time := m.time.drop i
    r_calc := m.r_calc.drop i
    L_calc := m.L_calc.drop i
    r_toe := m.r_toe.drop i
    L_toe := m.L_toe.drop i
    r_PSIS := m.r_PSIS.drop i
    L_PSIS := m.L_PSIS.drop i
    r_ASIS := m.r_ASIS.drop i
    L_ASIS := m.L_ASIS.drop i
    r_ankle := m.r_ankle.drop i
    L_ankle := m.L_ankle.drop i }

def MarkerSet.takeFrames (m : MarkerSet) (j : ℕ) : MarkerSet :=
  { time := m.time.take j
    r_calc := m.r_calc.take j
    L_calc := m.L_calc.take j
    r_toe := m.r_toe.take j
    L_toe := m.L_toe.take j
    r_PSIS := m.r_PSIS.take j
    L_PSIS := m.L_PSIS.take j
    r_ASIS := m.r_ASIS.take j
    L_ASIS := m.L_ASIS.take j
    r_ankle := m.r_ankle.take j
    L_ankle := m.L_ankle.take j }

def trimMarkerSet (m : MarkerSet) (ts te : ℚ) : Except String MarkerSet := do
  let m1 ←
    (if 0 < ts then
      match trimIdxStart m.time ts with
      | none => Except.error "IndexError: index -1 is out of bounds for axis 0 with size 0"
      | some i => Except.ok (m.dropFrames i)
    else Except.ok m)
  if 0 < te then
    match trimIdxEnd m1.time te with
    | none => Except.error "IndexError: index -1 is out of bounds for axis 0 with size 0"
    | some j => Except.ok (m1.takeFrames j)
  else Except.ok m1

structure GaitObj where
  gaitEvents : GaitEvents
  nGaitCycles : ℕ
  treadmillSpeed : ℚ
  gaitFrames : List Mat3
  markersRotated : MarkerSet
deriving DecidableEq, Repr

/-- gait_analysis.__init__: trims, segments, estimates treadmill speed,
builds the per-cycle frames and rotates the markers.  Unlike
squat_analysis.__init__, no step compares the marker time vector with the
coordinate time vector: coordTime is only stored (and trimmed), never
validated. -/
def gait_init (sqrtF : ℚ → ℚ) (m : MarkerSet) (_coordTime : Sig) (leg : String)
    (n_gait_cycles : ℤ) (gait_style : String) (trimming_start trimming_end : ℚ) :
    Except String GaitObj := do
  let mt ← trimMarkerSet m trimming_start trimming_end
  let ev ← segment_walking sqrtF mt n_gait_cycles leg
  let foot := if ev.ipsilateralLeg = "r" then mt.r_ankle else mt.L_ankle
  let speed ← compute_treadmill_speed sqrtF foot mt.time ev.ipsilateralIdx gait_style (3/10)
  let gfs := compute_gait_frame sqrtF mt ev speed
  .ok { gaitEvents := ev
        nGaitCycles := ev.ipsilateralIdx.length
        treadmillSpeed := speed
        gaitFrames := gfs
        markersRotated := rotateMarkers gfs ev.ipsilateralIdx mt }

/-- Whether an Except value is a success. -/
def isOkE : Except String α → Bool
  | .ok _ => true
  | .error _ => false

/-! ### Concrete trial data used by the witnesses -/

/-- Right calcaneus forward signal: heel strikes at frames 1 and 9. -/
def sigRcW : Sig := [0, 1, 0, 0, 0, 0, 0, 0, 0, 1, 0]

/-- Left calcaneus forward signal: heel strike at frame 5. -/
def sigLcW : Sig := [0, 0, 0, 0, 0, 1, 0, 0, 0, 0, 0]

/-- Right toe forward signal: toe off at frame 7. -/
def sigRtW : Sig := [0, 0, 0, 0, 0, 0, 0, -1, 0, 0, 0]

/-- Left toe forward signal: toe off at frame 3. -/
def sigLtW : Sig := [0, 0, 0, -1, 0, 0, 0, 0, 0, 0, 0]

def sigTimeW : Sig := [0, 1, 2, 3, 4, 5, 6, 7, 8, 9, 10]

/-- A disordered right calcaneus signal: two heel strikes with no other
events anywhere, so the order check fails at every prominence. -/
def sigBadRcW : Sig := [0, 1, 0, 1, 0]

/-- A flat signal: no peaks at any prominence. -/
def sigFlatW : Sig := [0, 0, 0, 0, 0]

def sqrtOneW : ℚ → ℚ := fun _ => 1

def mkXLineW (l : Sig) : List Vec3 := l.map (fun q => ⟨q, 0, 0⟩)

/-- Markers whose heading is the x axis and whose projected signals are the
four signals above. -/
def markersW : MarkerSet :=
  { time := sigTimeW
    r_calc := mkXLineW sigRcW
    L_calc := mkXLineW sigLcW
    r_toe := mkXLineW sigRtW
    L_toe := mkXLineW sigLtW
    r_PSIS := List.replicate 11 ⟨0, 0, 0⟩
    L_PSIS := List.replicate 11 ⟨0, 0, 0⟩
    r_ASIS := List.replicate 11 ⟨1, 0, 0⟩
    L_ASIS := List.replicate 11 ⟨1, 0, 0⟩
    r_ankle := mkXLineW [0, 1, 2, 3, 4, 5, 6, 7, 8, 9, 10]
    L_ankle := List.replicate 11 ⟨0, 0, 0⟩ }

/-- A coordinate time vector disagreeing with sigTimeW far beyond 1 ms. -/
def coordTimeBadW : Sig := [0, 2, 4, 6, 8, 10, 12, 14, 16, 18, 20]

/-- Gait events for the support-time witness. -/
def evGaitW : GaitEvents :=
  { ipsilateralIdx := [(1, 7, 9)]
    contralateralIdx := [(3, 5)]
    ipsilateralTime := [(0, 3/5, 1)]
    contralateralTime := [(1/10, 1/2)]
    ipsilateralLeg := "r" }

/-- Squat trial at 10 Hz with pelvis minima at frames 1 and 8. -/
def squatTimeW : Sig :=
  [0, 1/10, 2/10, 3/10, 4/10, 5/10, 6/10, 7/10, 8/10, 9/10, 1, 11/10, 12/10, 13/10, 14/10, 15/10]

def squatPelvW : Sig := [0, -1, 0, 0, 0, 0, 0, 0, -1, 0, 0, 0, 0, 0, 0, 0]

/-- A flat squat trial: no pelvis minima at all. -/
def flatTimeW : Sig := [0, 1/10, 2/10]

def flatPelvW : Sig := [0, 0, 0]

/-- Squat events and coordinates for the peak-angle witness. -/
def squatEvW : SquatEvents :=
  { eventIdxs := [(0, 2)], eventTimes := [(0, 2/10)], eventNames := ["repStart", "repEnd"] }

def coordsW : List (String × Sig) := [("knee_angle_r", [0, 5, 3])]

/-- The calcaneus positions used by the stride-length witness. -/
def calcPosW : List Vec3 := mkXLineW sigRcW

/-- The per-cycle invariant: strictly increasing ipsilateral triple and both
contralateral events strictly inside the heel-strike window. -/
abbrev cyclePairOk (a : ℤ × ℤ × ℤ) (c : ℤ × ℤ) : Prop :=
  a.1 < a.2.1 ∧ a.2.1 < a.2.2 ∧ a.1 < c.1 ∧ c.1 < a.2.2 ∧ a.1 < c.2 ∧ c.2 < a.2.2

/-- The gait events segment_walking returns on the clean witness trial. -/
def evSegW : GaitEvents :=
  { ipsilateralIdx := [(1, 7, 9)]
    contralateralIdx := [(3, 5)]
    ipsilateralTime := [(1, 7, 9)]
    contralateralTime := [(3, 5)]
    ipsilateralLeg := "r" }

/-- Peak streams for the cycle-count witness: three ipsilateral heel strikes
give two candidate cycles; the earlier one has no contralateral toe-off in
its window and is dropped. -/
def hsIpsW : List Nat := [2, 5, 9]

def toIpsW : List Nat := [3, 7]

def hsContW : List Nat := [4, 8]

def toContW : List Nat := [6]

instance exceptDecEq {ε α : Type} [DecidableEq ε] [DecidableEq α] :
    DecidableEq (Except ε α)
  | .error a, .error b =>
    if h : a = b then isTrue (congrArg Except.error h)
    else isFalse (fun hc => h (Except.error.inj hc))
  | .error _, .ok _ => isFalse (fun hc => Except.noConfusion hc)
  | .ok _, .error _ => isFalse (fun hc => Except.noConfusion hc)
  | .ok a, .ok b =>
    if h : a = b then isTrue (congrArg Except.ok h)
    else isFalse (fun hc => h (Except.ok.inj hc))

set_option maxRecDepth 100000

/-! ### Supporting lemmas -/

lemma argmaxAux_lt (t : Sig) (c : ℚ) (i best : Nat) (h : best < i) :
    argmaxAux t c i best < i + t.length := by
  induction t generalizing c i best with
  | nil => simpa [argmaxAux] using h
  | cons a t ih =>
    simp only [argmaxAux, List.length_cons]
    split
    · have := ih a (i+1) i (Nat.lt_succ_self i); omega
    · have := ih c (i+1) best (by omega); omega

lemma argmaxList_lt (l : Sig) (h : l ≠ []) : argmaxList l < l.length := by
  cases l with
  | nil => exact absurd rfl h
  | cons a t =>
    have h2 := argmaxAux_lt t a 1 0 (by omega)
    simp only [argmaxList, List.length_cons]
    omega

lemma scanPlateau_ge (x : Sig) (iMax : Nat) (v : ℚ) :
    ∀ fuel j, j ≤ scanPlateau x iMax v fuel j := by
  intro fuel
  induction fuel with
  | zero => intro j; simp [scanPlateau]
  | succ fuel ih =>
    intro j
    by_cases hc : j < iMax ∧ x.getD j 0 = v
    · rw [scanPlateau, if_pos hc]
      exact le_trans (by omega) (ih (j+1))
    · rw [scanPlateau, if_neg hc]

lemma scanPlateau_le (x : Sig) (iMax : Nat) (v : ℚ) :
    ∀ fuel j, j ≤ iMax → scanPlateau x iMax v fuel j ≤ iMax := by
  intro fuel
  induction fuel with
  | zero => intro j h; simpa [scanPlateau] using h
  | succ fuel ih =>
    intro j h
    by_cases hc : j < iMax ∧ x.getD j 0 = v
    · rw [scanPlateau, if_pos hc]
      exact ih (j+1) (by omega)
    · rw [scanPlateau, if_neg hc]
      exact h

lemma localMaxAux_mem (x : Sig) (iMax : Nat) :
    ∀ fuel i m, m ∈ localMaxAux x iMax fuel i → i ≤ m ∧ m < iMax := by
  intro fuel
  induction fuel with
  | zero => intro i m hm; simp [localMaxAux] at hm
  | succ fuel ih =>
    intro i m hm
    simp only [localMaxAux] at hm
    split_ifs at hm with hi h1 h2
    · have hge : i + 1 ≤ scanPlateau x iMax (x.getD i 0) iMax (i+1) :=
        scanPlateau_ge x iMax _ iMax (i+1)
      have hle : scanPlateau x iMax (x.getD i 0) iMax (i+1) ≤ iMax :=
        scanPlateau_le x iMax _ iMax (i+1) (by omega)
      rcases List.mem_cons.mp hm with rfl | hm2
      · omega
      · have := ih _ m hm2; omega
    · have := ih (i+1) m hm; omega
    · have := ih (i+1) m hm; omega
    · simp at hm

lemma localMaxAux_sorted (x : Sig) (iMax : Nat) :
    ∀ fuel i, List.Pairwise (· < ·) (localMaxAux x iMax fuel i) := by
  intro fuel
  induction fuel with
  | zero => intro i; simp [localMaxAux]
  | succ fuel ih =>
    intro i
    simp only [localMaxAux]
    split_ifs with hi h1 h2
    · refine List.Pairwise.cons ?_ (ih _)
      intro m hm
      have hb := localMaxAux_mem x iMax fuel _ m hm
      have hge : i + 1 ≤ scanPlateau x iMax (x.getD i 0) iMax (i+1) :=
        scanPlateau_ge x iMax _ iMax (i+1)
      omega
    · exact ih _
    · exact ih _
    · simp

lemma localMaxima_sorted (x : Sig) : List.Pairwise (· < ·) (localMaxima x) :=
  localMaxAux_sorted x (x.length - 1) x.length 1

lemma localMaxima_mem (x : Sig) (m : Nat) (hm : m ∈ localMaxima x) :
    1 ≤ m ∧ m + 1 < x.length := by
  have := localMaxAux_mem x (x.length - 1) x.length 1 m hm
  omega

lemma maskFilter_sublist : ∀ (l : List Nat) (m : List Bool),
    List.Sublist (maskFilter l m) l := by
  intro l
  induction l with
  | nil => intro m; cases m <;> simp [maskFilter]
  | cons a t ih =>
    intro m
    cases m with
    | nil => simp [maskFilter]
    | cons b mt =>
      simp only [maskFilter]
      split
      · exact List.Sublist.cons₂ a (ih mt)
      · exact List.Sublist.cons a (ih mt)

lemma selectByDistance_sublist (x : Sig) (peaks : List Nat) (dist : ℚ) :
    List.Sublist (selectByDistance x peaks dist) peaks := by
  unfold selectByDistance
  exact maskFilter_sublist peaks _

lemma squatMinima_sublist (time pelv : Sig) (hv : ℚ) :
    List.Sublist (squatMinima time pelv hv) (localMaxima (pelvSignalOf pelv)) := by
  unfold squatMinima findPeaksDistHeight
  exact (selectByDistance_sublist _ _ _).trans (List.filter_sublist _)

lemma squatMinima_sorted (time pelv : Sig) (hv : ℚ) :
    List.Pairwise (· < ·) (squatMinima time pelv hv) :=
  (localMaxima_sorted _).sublist (squatMinima_sublist time pelv hv)

lemma pelvSignal_length (pelv : Sig) : (pelvSignalOf pelv).length = pelv.length := by
  simp [pelvSignalOf]

lemma pelvSignalPos_length (pelv : Sig) : (pelvSignalPosOf pelv).length = pelv.length := by
  simp [pelvSignalPosOf]

lemma squatMinima_mem (time pelv : Sig) (hv : ℚ) (m : Nat)
    (hm : m ∈ squatMinima time pelv hv) :
    1 ≤ m ∧ m + 1 < pelv.length := by
  have := localMaxima_mem _ m ((squatMinima_sublist time pelv hv).subset hm)
  rwa [pelvSignal_length] at this

lemma argmaxRange_lt (sig : Sig) (a b : Nat) (ha : a < b) (hlen : a < sig.length) :
    argmaxRange sig a b < b := by
  have hpos : 0 < (pySlice sig a b).length := by
    simp only [pySlice, List.length_drop, List.length_take]
    omega
  have hlt := argmaxList_lt _ (List.length_pos.mp hpos)
  have hlen2 : (pySlice sig a b).length ≤ b - a := by
    simp only [pySlice, List.length_drop, List.length_take]
    omega
  unfold argmaxRange
  omega

lemma argmaxRange_ge (sig : Sig) (a b : Nat) : a ≤ argmaxRange sig a b :=
  Nat.le_add_left a _

lemma buildStartEnd_length (sig : Sig) : ∀ (mins : List Nat) (old : Nat),
    (buildStartEnd sig old mins).length = mins.length := by
  intro mins
  induction mins with
  | nil => intro old; simp [buildStartEnd]
  | cons m rest ih => intro old; simp [buildStartEnd, ih m]

lemma buildStartEnd_startlt (sig : Sig) : ∀ (mins : List Nat) (old : Nat),
    List.Pairwise (· < ·) mins → (∀ m ∈ mins, old < m ∧ m < sig.length) →
    ∀ p ∈ buildStartEnd sig old mins, p.1 < p.2 := by
  intro mins
  induction mins with
  | nil => intro old _ _ p hp; simp [buildStartEnd] at hp
  | cons m rest ih =>
    intro old hpw hb p hp
    have h1 : old < m := (hb m (List.mem_cons_self m rest)).1
    have h2 : m < sig.length := (hb m (List.mem_cons_self m rest)).2
    have hlt : argmaxRange sig old m < m := argmaxRange_lt sig old m h1 (by omega)
    cases rest with
    | nil =>
      simp only [buildStartEnd] at hp
      rcases List.mem_cons.mp hp with rfl | hp2
      · have hge := argmaxRange_ge sig m sig.length
        omega
      · simp [buildStartEnd] at hp2
    | cons m2 r2 =>
      simp only [buildStartEnd] at hp
      rcases List.mem_cons.mp hp with rfl | hp2
      · have hge := argmaxRange_ge sig m m2
        omega
      · have hrel := (List.pairwise_cons.mp hpw).1
        have htail := (List.pairwise_cons.mp hpw).2
        exact ih m htail
          (fun m3 hm3 => ⟨hrel m3 hm3, (hb m3 (List.mem_cons_of_mem m hm3)).2⟩) p hp2

lemma buildStartEnd_chain (sig : Sig) : ∀ (mins : List Nat) (old : Nat),
    List.Chain' (fun p q : Nat × Nat => p.2 = q.1) (buildStartEnd sig old mins) := by
  intro mins
  induction mins with
  | nil => intro old; simp [buildStartEnd]
  | cons m rest ih =>
    intro old
    cases rest with
    | nil => simp [buildStartEnd]
    | cons m2 r2 =>
      simp only [buildStartEnd]
      refine List.chain'_cons'.mpr ⟨?_, ?_⟩
      · intro q hq
        simp only [buildStartEnd, List.head?_cons, Option.mem_def, Option.some.injEq] at hq
        subst hq
        rfl
      · exact ih m

/-! ### C1 -/

/-- C1: segment_walking detects peaks at prominence 0.3 first, retries at
0.25 and then 0.2 whenever the four event streams violate the physiological
interleaving order, raises exactly when all three prominences fail, never
returns a violating event set and never raises after a higher-prominence
pass already satisfied the order. -/
theorem C1_prominence_backoff (rc lc rt lt : Sig) :
    (∀ s, gaitDetectLoop rc lc rt lt prominenceCandidates = .ok s →
        detect_correct_order s = true) ∧
    (∀ e, gaitDetectLoop rc lc rt lt prominenceCandidates = .error e →
        ∀ p ∈ prominenceCandidates,
          detect_correct_order (detect_gait_peaks rc lc rt lt p) = false) ∧
    (detect_correct_order (detect_gait_peaks rc lc rt lt (3/10)) = true →
        gaitDetectLoop rc lc rt lt prominenceCandidates
          = .ok (detect_gait_peaks rc lc rt lt (3/10))) ∧
    (detect_correct_order (detect_gait_peaks rc lc rt lt (3/10)) = false →
      detect_correct_order (detect_gait_peaks rc lc rt lt (1/4)) = true →
        gaitDetectLoop rc lc rt lt prominenceCandidates
          = .ok (detect_gait_peaks rc lc rt lt (1/4))) ∧
    (detect_correct_order (detect_gait_peaks rc lc rt lt (3/10)) = false →
      detect_correct_order (detect_gait_peaks rc lc rt lt (1/4)) = false →
      detect_correct_order (detect_gait_peaks rc lc rt lt (1/5)) = true →
        gaitDetectLoop rc lc rt lt prominenceCandidates
          = .ok (detect_gait_peaks rc lc rt lt (1/5))) ∧
    (detect_correct_order (detect_gait_peaks rc lc rt lt (3/10)) = false →
      detect_correct_order (detect_gait_peaks rc lc rt lt (1/4)) = false →
      detect_correct_order (detect_gait_peaks rc lc rt lt (1/5)) = false →
        gaitDetectLoop rc lc rt lt prominenceCandidates
          = .error "The ordering of gait events is not correct. Consider trimming your trial using the trimming_start and trimming_end options.") := by
  by_cases h3 : detect_correct_order (detect_gait_peaks rc lc rt lt (3/10)) = true <;>
  by_cases h25 : detect_correct_order (detect_gait_peaks rc lc rt lt (1/4)) = true <;>
  by_cases h2 : detect_correct_order (detect_gait_peaks rc lc rt lt (1/5)) = true <;>
  simp_all [gaitDetectLoop, prominenceCandidates]

/-- Witness for C1: on the concrete clean trial the first pass (prominence
0.3) already satisfies the order and is returned, and on the disordered
trial (two right heel strikes, all other streams empty) every prominence
fails the order check and the loop raises. -/
theorem C1_prominence_backoff_witness :
    (gaitDetectLoop sigRcW sigLcW sigRtW sigLtW prominenceCandidates
      = .ok (detect_gait_peaks sigRcW sigLcW sigRtW sigLtW (3/10)))
    ∧ (gaitDetectLoop sigBadRcW sigFlatW sigFlatW sigFlatW prominenceCandidates
      = .error "The ordering of gait events is not correct. Consider trimming your trial using the trimming_start and trimming_end options.") :=
  ⟨(C1_prominence_backoff sigRcW sigLcW sigRtW sigLtW).2.2.1
      (by with_unfolding_all decide),
   (C1_prominence_backoff sigBadRcW sigFlatW sigFlatW sigFlatW).2.2.2.2.2
      (by with_unfolding_all decide) (by with_unfolding_all decide)
      (by with_unfolding_all decide)⟩

/-! ### C3 -/

/-- C3: compute_treadmill_speed returns 0 when gait_style is forced to
overground; with auto it returns 0 below the 0.3 m/s threshold and the
measured value otherwise; forcing treadmill always returns the measured
value, even below the threshold. -/
theorem C3_treadmill_speed_policy (sqrtF : ℚ → ℚ) (foot : List Vec3) (time : Sig)
    (ips : List (ℤ × ℤ × ℤ)) :
    compute_treadmill_speed sqrtF foot time ips "overground" (3/10) = .ok 0 ∧
    compute_treadmill_speed sqrtF foot time ips "treadmill" (3/10)
      = .ok (measuredTreadmillSpeed sqrtF foot time ips) ∧
    compute_treadmill_speed sqrtF foot time ips "auto" (3/10)
      = .ok (if measuredTreadmillSpeed sqrtF foot time ips < 3/10 then 0
             else measuredTreadmillSpeed sqrtF foot time ips) := by
  refine ⟨?_, ?_, ?_⟩ <;> simp [compute_treadmill_speed]

/-! ### C4 -/

/-- C4: for every detected cycle, single and double support percentages sum
to exactly 100, single support being defined as 100 minus double support. -/
theorem C4_support_times_sum (ev : GaitEvents) (i : ℕ)
    (h : i < (singleSupportTimes ev).length) :
    (singleSupportTimes ev).getD i 0 + (doubleSupportTimes ev).getD i 0 = 100 := by
  have hl : i < (doubleSupportTimes ev).length := by
    simpa [singleSupportTimes] using h
  simp [singleSupportTimes, List.getD_eq_getElem?_getD, List.getElem?_eq_getElem, hl,
    List.getElem?_map]

/-- Witness for C4 on a concrete cycle. -/
theorem C4_support_times_sum_witness :
    0 < (singleSupportTimes evGaitW).length ∧
    (singleSupportTimes evGaitW).getD 0 0 + (doubleSupportTimes evGaitW).getD 0 0 = 100 :=
  ⟨by decide, C4_support_times_sum evGaitW 0 (by decide)⟩

/-! ### C10 -/

/-- C10: with at least two detected pelvis-height minima and no repetition
truncation, the start/end index pairs of segment_squat have start strictly
below end in every repetition, and the end of repetition i equals the start
of repetition i+1 (both are the argmax over the interval between the same
consecutive minima). -/
theorem C10_squat_pair_invariant (time pelv : Sig)
    (hdist : 1 ≤ squatDistance time)
    (h2 : 2 ≤ (squatMinima time pelv (2/10)).length) :
    segment_squat time pelv (-1) (2/10) = .ok
      { eventIdxs := buildStartEnd (pelvSignalPosOf pelv) 0 (squatMinima time pelv (2/10))
        eventTimes := (buildStartEnd (pelvSignalPosOf pelv) 0
            (squatMinima time pelv (2/10))).map
          (fun p => (time.getD p.1 0, time.getD p.2 0))
        eventNames := ["repStart", "repEnd"] } ∧
    (∀ i, i < (buildStartEnd (pelvSignalPosOf pelv) 0 (squatMinima time pelv (2/10))).length →
      ((buildStartEnd (pelvSignalPosOf pelv) 0 (squatMinima time pelv (2/10))).getD i (0, 0)).1
        < ((buildStartEnd (pelvSignalPosOf pelv) 0 (squatMinima time pelv (2/10))).getD i (0, 0)).2) ∧
    (∀ i, i + 1 < (buildStartEnd (pelvSignalPosOf pelv) 0 (squatMinima time pelv (2/10))).length →
      ((buildStartEnd (pelvSignalPosOf pelv) 0 (squatMinima time pelv (2/10))).getD i (0, 0)).2
        = ((buildStartEnd (pelvSignalPosOf pelv) 0 (squatMinima time pelv (2/10))).getD (i+1) (0, 0)).1) := by
  have hb : ∀ m ∈ squatMinima time pelv (2/10), 0 < m ∧ m < (pelvSignalPosOf pelv).length := by
    intro m hm
    have := squatMinima_mem time pelv (2/10) m hm
    rw [pelvSignalPos_length]
    omega
  have hstart := buildStartEnd_startlt (pelvSignalPosOf pelv) (squatMinima time pelv (2/10)) 0
    (squatMinima_sorted time pelv (2/10)) hb
  have hchain := buildStartEnd_chain (pelvSignalPosOf pelv) (squatMinima time pelv (2/10)) 0
  refine ⟨?_, ?_, ?_⟩
  · unfold segment_squat
    rw [if_neg (not_lt.mpr hdist)]
    have hlen : (buildStartEnd (pelvSignalPosOf pelv) 0 (squatMinima time pelv (2/10))).length
        = (squatMinima time pelv (2/10)).length := buildStartEnd_length _ _ _
    rcases hp : buildStartEnd (pelvSignalPosOf pelv) 0 (squatMinima time pelv (2/10)) with _ | ⟨a, t⟩
    · exfalso
      rw [hp] at hlen
      simp only [List.length_nil] at hlen
      omega
    · simp [hp]
  · intro i hi
    have hmem : (buildStartEnd (pelvSignalPosOf pelv) 0 (squatMinima time pelv (2/10))).getD i (0, 0)
        ∈ buildStartEnd (pelvSignalPosOf pelv) 0 (squatMinima time pelv (2/10)) := by
      rw [List.getD_eq_getElem _ _ hi]
      exact List.getElem_mem hi
    exact hstart _ hmem
  · intro i hi
    rw [List.getD_eq_getElem _ _ (by omega), List.getD_eq_getElem _ _ hi]
    have := List.chain'_iff_get.mp hchain i (by omega)
    simpa [List.get_eq_getElem] using this

/-- Witness for C10 on a concrete two-repetition squat trial. -/
theorem C10_squat_pair_invariant_witness :
    1 ≤ squatDistance squatTimeW ∧
    2 ≤ (squatMinima squatTimeW squatPelvW (2/10)).length ∧
    ((buildStartEnd (pelvSignalPosOf squatPelvW) 0
        (squatMinima squatTimeW squatPelvW (2/10))).getD 0 (0, 0)).2
      = ((buildStartEnd (pelvSignalPosOf squatPelvW) 0
        (squatMinima squatTimeW squatPelvW (2/10))).getD 1 (0, 0)).1 :=
  ⟨by with_unfolding_all decide, by with_unfolding_all decide,
    (C10_squat_pair_invariant squatTimeW squatPelvW (by with_unfolding_all decide)
      (by with_unfolding_all decide)).2.2 0 (by with_unfolding_all decide)⟩

/-! ### C8 -/

/-- C8: segment_squat fails whenever no squat repetition is detected and
never returns an empty repetition set: with zero pelvis minima the start/end
list is empty and converting it to times indexes self.time with an empty
float array, which raises (modeled as the IndexError branch); a successful
return always carries at least one repetition. -/
theorem C8_squat_fails_on_no_reps (time pelv : Sig) (n : ℤ) :
    (squatMinima time pelv (2/10) = [] →
      isOkE (segment_squat time pelv n (2/10)) = false) ∧
    (∀ ev, segment_squat time pelv n (2/10) = .ok ev → ev.eventIdxs ≠ []) := by
  have hempty : ∀ (z : ℤ), pySliceFrom ([] : List (Nat × Nat)) z = [] := by
    intro z
    simp [pySliceFrom]
  constructor
  · intro h
    simp only [segment_squat, h, buildStartEnd]
    split_ifs with hd hn
    · rfl
    · rw [hempty]
      rfl
    · rfl
  · intro ev hok
    simp only [segment_squat] at hok
    by_cases hd : squatDistance time < 1
    · rw [if_pos hd] at hok
      exact absurd hok (by simp)
    · rw [if_neg hd] at hok
      by_cases hn : n ≠ -1
      · rw [if_pos hn] at hok
        generalize htr : pySliceFrom
          (buildStartEnd (pelvSignalPosOf pelv) 0 (squatMinima time pelv (2/10))) (-n) = tr at hok
        cases tr with
        | nil => exact absurd hok (by simp)
        | cons a t =>
          simp only [Except.ok.injEq] at hok
          rw [← hok]
          simp
      · rw [if_neg hn] at hok
        generalize htr :
          buildStartEnd (pelvSignalPosOf pelv) 0 (squatMinima time pelv (2/10)) = tr at hok
        cases tr with
        | nil => exact absurd hok (by simp)
        | cons a t =>
          simp only [Except.ok.injEq] at hok
          rw [← hok]
          simp

/-- Witness for C8: a flat pelvis trace yields no minima and segmentation
fails. -/
theorem C8_squat_fails_on_no_reps_witness :
    isOkE (segment_squat flatTimeW flatPelvW (-1) (2/10)) = false :=
  (C8_squat_fails_on_no_reps flatTimeW flatPelvW (-1)).1 (by with_unfolding_all decide)

/-! ### C9 -/

lemma mapM_peakOfRep_max (sig : Sig) :
    ∀ l : List (Nat × Nat), List.mapM (peakOfRep sig "maximum") l
      = Except.ok (l.map (fun p => listMax (pySlice sig p.1 (p.2 + 1)))) := by
  intro l
  induction l with
  | nil => rfl
  | cons a t ih =>
    rw [List.mapM_cons, ih]
    simp [peakOfRep]
    rfl

/-- C9 counterexample: the gait calculator compute_stride_length with the
default return_all=False returns a pair (mean, unit), not a
(mean, std, unit) triple. -/
theorem C9_counterexample_gait_pair :
    (compute_stride_length calcPosW evGaitW 0 false).length = 2 ∧
    ¬(compute_stride_length calcPosW evGaitW 0 false).length = 3 := by
  constructor <;> with_unfolding_all decide

/-- C9 as amended: gait calculators return (mean, unit) by default and
(per-cycle array, unit) with return_all=true; squat calculators return
(mean, std, unit) by default and (per-repetition array, unit) with
return_all=true. -/
theorem C9_amended_return_shapes (calcPos : List Vec3) (ev : GaitEvents) (sp : ℚ)
    (sqrtF : ℚ → ℚ) (coords : List (String × Sig)) (sev : SquatEvents)
    (c : String) (sig : Sig) (hc : lookupCoord coords c = some sig) :
    compute_stride_length calcPos ev sp false
      = [.num (mean (strideLengthsOf calcPos ev sp)), .str "m"] ∧
    compute_stride_length calcPos ev sp true
      = [.arr (strideLengthsOf calcPos ev sp), .str "m"] ∧
    compute_peak_angle sqrtF coords sev c "maximum" false
      = .ok [.num (mean (sev.eventIdxs.map (fun p => listMax (pySlice sig p.1 (p.2 + 1))))),
             .num (npStd sqrtF (sev.eventIdxs.map (fun p => listMax (pySlice sig p.1 (p.2 + 1))))),
             .str "deg"] ∧
    compute_peak_angle sqrtF coords sev c "maximum" true
      = .ok [.arr (sev.eventIdxs.map (fun p => listMax (pySlice sig p.1 (p.2 + 1)))),
             .str "deg"] := by
  refine ⟨by simp [compute_stride_length], by simp [compute_stride_length], ?_, ?_⟩ <;>
  · simp only [compute_peak_angle, hc]
    rw [mapM_peakOfRep_max]
    rfl

/-- Witness for C9 (amended) on a concrete squat repetition. -/
theorem C9_amended_return_shapes_witness :
    compute_peak_angle sqrtOneW coordsW squatEvW "knee_angle_r" "maximum" false
      = .ok [.num (mean (squatEvW.eventIdxs.map
              (fun p => listMax (pySlice [0, 5, 3] p.1 (p.2 + 1))))),
             .num (npStd sqrtOneW (squatEvW.eventIdxs.map
              (fun p => listMax (pySlice [0, 5, 3] p.1 (p.2 + 1))))),
             .str "deg"] :=
  (C9_amended_return_shapes calcPosW evGaitW 0 sqrtOneW coordsW squatEvW
    "knee_angle_r" [0, 5, 3] (by with_unfolding_all decide)).2.2.1

/-! ### C6 -/

lemma str_data_append (a b : String) : (a ++ b).data = a.data ++ b.data := by simp

lemma infix_app_right {l m : List Char} (h : l <:+: m) (k : List Char) :
    l <:+: m ++ k :=
  h.trans (List.infix_append [] m k)

lemma infix_app_left {l m : List Char} (h : l <:+: m) (k : List Char) :
    l <:+: k ++ m :=
  h.trans ⟨k, [], by simp⟩

lemma infix_joinComma : ∀ (l : List String) (x : String), x ∈ l →
    x.data <:+: (joinComma l).data := by
  intro l
  induction l with
  | nil => intro x hx; simp at hx
  | cons a t ih =>
    intro x hx
    cases t with
    | nil =>
      simp only [List.mem_singleton] at hx
      subst hx
      exact List.infix_rfl
    | cons b r =>
      rcases List.mem_cons.mp hx with rfl | hx2
      · show x.data <:+: ((x ++ ", ") ++ joinComma (b :: r)).data
        rw [str_data_append]
        refine infix_app_right ?_ _
        rw [str_data_append]
        exact infix_app_right List.infix_rfl _
      · have hrec := ih x hx2
        show x.data <:+: ((a ++ ", ") ++ joinComma (b :: r)).data
        rw [str_data_append]
        exact infix_app_left hrec _

lemma pyStrList_infix (l : List String) (x : String) (hx : x ∈ l) :
    x.data <:+: (pyStrList l).data := by
  have h1 : ("\x27" ++ x ++ "\x27") ∈ l.map (fun a => "\x27" ++ a ++ "\x27") :=
    List.mem_map_of_mem _ hx
  have h2 := infix_joinComma _ _ h1
  have h3 : x.data <:+: ("\x27" ++ x ++ "\x27").data := by
    rw [str_data_append, str_data_append]
    exact infix_app_right (infix_app_left List.infix_rfl _) _
  have h4 := h3.trans h2
  unfold pyStrList
  rw [str_data_append, str_data_append]
  exact infix_app_right (infix_app_left h4 _) _

/-- C6 counterexample: requesting the unknown scalar "bogus" from the gait
class raises, but the message lists only the unknown requested name — no
known (valid) metric name such as stride_length appears in it. -/
theorem C6_counterexample_lists_unknown :
    compute_scalars gaitMethodNames (fun _ => (0, "")) (some ["bogus"])
      = .err (pyStrList ["compute_bogus"] ++ " does not exist in gait_analysis class.") ∧
    "compute_stride_length" ∈ gaitMethodNames ∧
    containsSub "stride_length"
      (pyStrList ["compute_bogus"] ++ " does not exist in gait_analysis class.") = false := by
  refine ⟨by with_unfolding_all decide, by decide, by decide⟩

/-- C6 as amended: an unknown requested name raises an error whose message
lists the unknown requested names (each prefixed with compute_) rather than
the known names, and a None request returns the description of all available
compute_ methods. -/
theorem C6_amended_unknown_metric (method_names : List String) (f : String → ℚ × String)
    (names : List String) (h : unknownScalars method_names names ≠ []) :
    (compute_scalars method_names f (some names)
      = .err (pyStrList ((unknownScalars method_names names).map (fun a => "compute_" ++ a))
          ++ " does not exist in gait_analysis class.") ∧
     ∀ u ∈ unknownScalars method_names names,
       containsSub ("compute_" ++ u)
         (pyStrList ((unknownScalars method_names names).map (fun a => "compute_" ++ a))
           ++ " does not exist in gait_analysis class.") = true) ∧
    compute_scalars method_names f none = .info (possibleMethodsOf method_names) := by
  refine ⟨⟨?_, ?_⟩, rfl⟩
  · simp [compute_scalars, List.isEmpty_iff, h]
  · intro u hu
    have hmem : ("compute_" ++ u) ∈ (unknownScalars method_names names).map
        (fun a => "compute_" ++ a) := List.mem_map_of_mem _ hu
    have hinf := pyStrList_infix _ _ hmem
    have : ("compute_" ++ u).data <:+:
        (pyStrList ((unknownScalars method_names names).map (fun a => "compute_" ++ a))
          ++ " does not exist in gait_analysis class.").data := by
      rw [str_data_append]
      exact infix_app_right hinf _
    unfold containsSub
    exact decide_eq_true this

/-- Witness for C6 (amended) at the concrete unknown request. -/
theorem C6_amended_unknown_metric_witness :
    compute_scalars gaitMethodNames (fun _ => (0, "")) (some ["bogus"])
      = .err (pyStrList ((unknownScalars gaitMethodNames ["bogus"]).map
          (fun a => "compute_" ++ a)) ++ " does not exist in gait_analysis class.") :=
  (C6_amended_unknown_metric gaitMethodNames (fun _ => (0, "")) ["bogus"]
    (by with_unfolding_all decide)).1.1


/-- C7 counterexample: the gait constructor performs no marker/coordinate
time-base consistency check: with time vectors disagreeing far beyond 1 ms
it still proceeds through segmentation and completes successfully. -/
theorem C7_counterexample_gait_no_check :
    allclose_atol sigTimeW coordTimeBadW (1/1000) = false ∧
    isOkE (gait_init sqrtOneW markersW coordTimeBadW "auto" (-1) "treadmill" 0 0) = true := by
  constructor
  · with_unfolding_all decide
  · with_unfolding_all decide

/-- C7 as amended: only the squat constructor checks the time base; beyond
the 1 ms tolerance it fails immediately, before segmentation (the result
does not depend on the pelvis signal that segmentation would consume). -/
theorem C7_amended_squat_time_check (mt ct pelv pelv2 : Sig) (n : ℤ) (ts te : ℚ)
    (h : allclose_atol mt ct (1/1000) = false) :
    squat_init mt ct pelv n ts te
      = .error "Time vectors of marker and coordinate data are not the same." ∧
    squat_init mt ct pelv n ts te = squat_init mt ct pelv2 n ts te := by
  unfold squat_init
  rw [h]
  simp

/-- Witness for C7 (amended) at a concrete mismatched time base. -/
theorem C7_amended_squat_time_check_witness :
    squat_init sigTimeW coordTimeBadW flatPelvW (-1) 0 0
      = .error "Time vectors of marker and coordinate data are not the same." :=
  (C7_amended_squat_time_check sigTimeW coordTimeBadW flatPelvW flatPelvW (-1) 0 0
    (by with_unfolding_all decide)).1

/-! ### Properties of the minimum extraction -/

lemma cand_some (s : GStreams) (n : GName) (r : GName × Nat) (h : cand s n = some r) :
    r.1 = n ∧ ∃ t, s.get n = r.2 :: t := by
  unfold cand at h
  cases hg : s.get n with
  | nil => rw [hg] at h; exact absurd h (by simp)
  | cons a t =>
    rw [hg] at h
    cases h
    exact ⟨rfl, t, rfl⟩

lemma cand_of_get (s : GStreams) (n : GName) (x : Nat) (t : List Nat)
    (h : s.get n = x :: t) : cand s n = some (n, x) := by
  unfold cand
  rw [h]

lemma pick_none_iff (a b : Option (GName × Nat)) :
    pick a b = none ↔ a = none ∧ b = none := by
  cases a <;> cases b <;> simp [pick] <;> split_ifs <;> simp

lemma pick_some_cases (a b : Option (GName × Nat)) (r : GName × Nat)
    (h : pick a b = some r) :
    a = some r ∨ (b = some r ∧ ∀ x, a = some x → r.2 < x.2) := by
  cases a with
  | none =>
    cases b with
    | none => exact absurd h (by simp [pick])
    | some bv => right; exact ⟨h, by intro x hx; exact absurd hx (by simp)⟩
  | some av =>
    cases b with
    | none => left; simpa [pick] using h
    | some bv =>
      simp only [pick] at h
      split_ifs at h with hlt
      · right
        refine ⟨h, ?_⟩
        intro x hx
        cases hx
        cases h
        omega
      · left; exact h

lemma pick_some_of_left (a b : Option (GName × Nat)) (av : GName × Nat)
    (h : a = some av) : ∃ y, pick a b = some y ∧ y.2 ≤ av.2 := by
  subst h
  cases b with
  | none => exact ⟨av, rfl, le_rfl⟩
  | some bv =>
    simp only [pick]
    split_ifs with hlt
    · exact ⟨bv, rfl, by omega⟩
    · exact ⟨av, rfl, le_rfl⟩

lemma pick_some_of_right (a b : Option (GName × Nat)) (bv : GName × Nat)
    (h : b = some bv) : ∃ y, pick a b = some y ∧ y.2 ≤ bv.2 := by
  subst h
  cases a with
  | none => exact ⟨bv, rfl, le_rfl⟩
  | some av =>
    simp only [pick]
    split_ifs with hlt
    · exact ⟨bv, rfl, le_rfl⟩
    · exact ⟨av, rfl, by omega⟩

lemma minCand_self (s : GStreams) (r : GName × Nat) (h : minCand s = some r) :
    ∃ t, s.get r.1 = r.2 :: t := by
  unfold minCand at h
  rcases pick_some_cases _ _ _ h with h3 | ⟨h3, _⟩
  · rcases pick_some_cases _ _ _ h3 with h2 | ⟨h2, _⟩
    · rcases pick_some_cases _ _ _ h2 with h1 | ⟨h1, _⟩
      · obtain ⟨he, t, ht⟩ := cand_some s _ _ h1
        exact ⟨t, by rw [he]; exact ht⟩
      · obtain ⟨he, t, ht⟩ := cand_some s _ _ h1
        exact ⟨t, by rw [he]; exact ht⟩
    · obtain ⟨he, t, ht⟩ := cand_some s _ _ h2
      exact ⟨t, by rw [he]; exact ht⟩
  · obtain ⟨he, t, ht⟩ := cand_some s _ _ h3
    exact ⟨t, by rw [he]; exact ht⟩

lemma minCand_none_get (s : GStreams) (h : minCand s = none) (n : GName) :
    s.get n = [] := by
  unfold minCand at h
  rw [pick_none_iff] at h
  obtain ⟨h3, hC3⟩ := h
  rw [pick_none_iff] at h3
  obtain ⟨h2, hC2⟩ := h3
  rw [pick_none_iff] at h2
  obtain ⟨hC0, hC1⟩ := h2
  have hempty : ∀ m : GName, cand s m = none → s.get m = [] := by
    intro m hm
    unfold cand at hm
    cases hg : s.get m with
    | nil => rfl
    | cons a t => rw [hg] at hm; exact absurd hm (by simp)
  cases n
  · exact hempty _ hC0
  · exact hempty _ hC1
  · exact hempty _ hC2
  · exact hempty _ hC3

lemma minCand_le (s : GStreams) (r : GName × Nat) (h : minCand s = some r) :
    ∀ n x t, s.get n = x :: t → r.2 ≤ x := by
  intro n x t hg
  have hc := cand_of_get s n x t hg
  unfold minCand at h
  cases n
  · obtain ⟨y1, hp1, hy1⟩ := pick_some_of_left (cand s .rHS) (cand s .rTO) _ hc
    obtain ⟨y2, hp2, hy2⟩ := pick_some_of_left _ (cand s .lHS) _ hp1
    obtain ⟨y3, hp3, hy3⟩ := pick_some_of_left _ (cand s .lTO) _ hp2
    rw [hp3] at h
    cases h
    omega
  · obtain ⟨y1, hp1, hy1⟩ := pick_some_of_right (cand s .rHS) (cand s .rTO) _ hc
    obtain ⟨y2, hp2, hy2⟩ := pick_some_of_left _ (cand s .lHS) _ hp1
    obtain ⟨y3, hp3, hy3⟩ := pick_some_of_left _ (cand s .lTO) _ hp2
    rw [hp3] at h
    cases h
    omega
  · obtain ⟨y2, hp2, hy2⟩ := pick_some_of_right (pick (cand s .rHS) (cand s .rTO))
      (cand s .lHS) _ hc
    obtain ⟨y3, hp3, hy3⟩ := pick_some_of_left _ (cand s .lTO) _ hp2
    rw [hp3] at h
    cases h
    omega
  · obtain ⟨y3, hp3, hy3⟩ := pick_some_of_right
      (pick (pick (cand s .rHS) (cand s .rTO)) (cand s .lHS)) (cand s .lTO) _ hc
    rw [hp3] at h
    cases h
    omega

/-- The stream the minimum came from, together with strict bounds on every
stream of smaller rank. -/
lemma minCand_origin (s : GStreams) (r : GName × Nat) (h : minCand s = some r) :
    (cand s .rHS = some r) ∨
    (cand s .rTO = some r ∧ ∀ x t, s.get .rHS = x :: t → r.2 < x) ∨
    (cand s .lHS = some r ∧ (∀ x t, s.get .rHS = x :: t → r.2 < x) ∧
      (∀ x t, s.get .rTO = x :: t → r.2 < x)) ∨
    (cand s .lTO = some r ∧ (∀ x t, s.get .rHS = x :: t → r.2 < x) ∧
      (∀ x t, s.get .rTO = x :: t → r.2 < x) ∧
      (∀ x t, s.get .lHS = x :: t → r.2 < x)) := by
  unfold minCand at h
  rcases pick_some_cases _ _ _ h with h3 | ⟨h3, hb3⟩
  · rcases pick_some_cases _ _ _ h3 with h2 | ⟨h2, hb2⟩
    · rcases pick_some_cases _ _ _ h2 with h1 | ⟨h1, hb1⟩
      · exact Or.inl h1
      · refine Or.inr (Or.inl ⟨h1, ?_⟩)
        intro x t hg
        exact hb1 _ (cand_of_get s _ x t hg)
    · refine Or.inr (Or.inr (Or.inl ⟨h2, ?_, ?_⟩))
      · intro x t hg
        obtain ⟨y1, hp1, hy1⟩ :=
          pick_some_of_left (cand s .rHS) (cand s .rTO) _ (cand_of_get s _ x t hg)
        have := hb2 _ hp1
        omega
      · intro x t hg
        obtain ⟨y1, hp1, hy1⟩ :=
          pick_some_of_right (cand s .rHS) (cand s .rTO) _ (cand_of_get s _ x t hg)
        have := hb2 _ hp1
        omega
  · refine Or.inr (Or.inr (Or.inr ⟨h3, ?_, ?_, ?_⟩))
    · intro x t hg
      obtain ⟨y1, hp1, hy1⟩ :=
        pick_some_of_left (cand s .rHS) (cand s .rTO) _ (cand_of_get s _ x t hg)
      obtain ⟨y2, hp2, hy2⟩ := pick_some_of_left _ (cand s .lHS) _ hp1
      have := hb3 _ hp2
      omega
    · intro x t hg
      obtain ⟨y1, hp1, hy1⟩ :=
        pick_some_of_right (cand s .rHS) (cand s .rTO) _ (cand_of_get s _ x t hg)
      obtain ⟨y2, hp2, hy2⟩ := pick_some_of_left _ (cand s .lHS) _ hp1
      have := hb3 _ hp2
      omega
    · intro x t hg
      obtain ⟨y2, hp2, hy2⟩ := pick_some_of_right (pick (cand s .rHS) (cand s .rTO))
        (cand s .lHS) _ (cand_of_get s _ x t hg)
      have := hb3 _ hp2
      omega

lemma nameRank_inj (a b : GName) (h : nameRank a = nameRank b) : a = b := by
  cases a <;> cases b <;> simp_all [nameRank]

/-- Full lexicographic minimality of minCand: every nonempty stream head is
strictly larger, or equal with the extracted stream coming first in dict
order. -/
lemma minCand_lex (s : GStreams) (r : GName × Nat) (h : minCand s = some r) :
    ∀ n x t, s.get n = x :: t → r.2 < x ∨ (r.2 = x ∧ nameRank r.1 ≤ nameRank n) := by
  intro n x t hg
  have hle := minCand_le s r h n x t hg
  rcases Nat.lt_or_ge r.2 x with hlt | hge
  · exact Or.inl hlt
  · have heq : r.2 = x := by omega
    refine Or.inr ⟨heq, ?_⟩
    rcases minCand_origin s r h with h0 | ⟨h1, hb⟩ | ⟨h2, hb0, hb1⟩ | ⟨h3, hb0, hb1, hb2⟩
    · have := (cand_some s _ _ h0).1
      rw [this]
      cases n <;> simp [nameRank]
    · have := (cand_some s _ _ h1).1
      rw [this]
      cases n
      · have := hb x t hg; omega
      · simp [nameRank]
      · simp [nameRank]
      · simp [nameRank]
    · have := (cand_some s _ _ h2).1
      rw [this]
      cases n
      · have := hb0 x t hg; omega
      · have := hb1 x t hg; omega
      · simp [nameRank]
      · simp [nameRank]
    · have := (cand_some s _ _ h3).1
      rw [this]
      cases n
      · have := hb0 x t hg; omega
      · have := hb1 x t hg; omega
      · have := hb2 x t hg; omega
      · simp [nameRank]

lemma popHead_get (s : GStreams) (n m : GName) :
    (popHead s n).get m = if m = n then (s.get n).tail else s.get m := by
  cases n <;> cases m <;> simp [popHead, GStreams.get]

lemma get_length_le_total (s : GStreams) (n : GName) :
    (s.get n).length ≤ totalLen s := by
  cases n <;> simp [GStreams.get, totalLen] <;> omega

lemma totalLen_pop (s : GStreams) (n : GName) (h : s.get n ≠ []) :
    totalLen (popHead s n) = totalLen s - 1 := by
  cases n <;>
  · simp only [GStreams.get] at h
    have := List.length_pos.mpr h
    simp [popHead, totalLen, GStreams.get]
    omega

/-! ### The extraction sequence: projection, sortedness, and the order
check -/

lemma totalLen_zero_get (s : GStreams) (h : totalLen s = 0) (n : GName) :
    s.get n = [] := by
  have := get_length_le_total s n
  rw [h] at this
  exact List.length_eq_zero.mp (by omega)

lemma projE_nil (n : GName) : projE n [] = [] := rfl

lemma projE_cons (n : GName) (e : GName × Nat) (E : List (GName × Nat)) :
    projE n (e :: E) = if e.1 = n then e.2 :: projE n E else projE n E := by
  simp only [projE, List.filterMap_cons]
  split_ifs with he
  · simp [he]
  · simp [he]

lemma projE_subset_cons (n : GName) (e : GName × Nat) (E : List (GName × Nat))
    (v : Nat) (hv : v ∈ projE n E) : v ∈ projE n (e :: E) := by
  rw [projE_cons]
  split_ifs
  · exact List.mem_cons_of_mem _ hv
  · exact hv

lemma mergeSeq_nil_of_none (fuel : Nat) (s : GStreams) (h : minCand s = none) :
    mergeSeq fuel s = [] := by
  cases fuel <;> simp [mergeSeq, h]

lemma projE_merge (fuel : Nat) : ∀ s : GStreams, totalLen s ≤ fuel →
    ∀ n, projE n (mergeSeq fuel s) = s.get n := by
  induction fuel with
  | zero =>
    intro s hs n
    rw [totalLen_zero_get s (by omega) n]
    rfl
  | succ fuel ih =>
    intro s hs n
    cases hm : minCand s with
    | none =>
      rw [mergeSeq_nil_of_none _ _ hm, projE_nil, minCand_none_get s hm n]
    | some r =>
      obtain ⟨t, hself⟩ := minCand_self s r hm
      have hne : s.get r.1 ≠ [] := by rw [hself]; simp
      have htot : 1 ≤ totalLen s := by
        have h1 := get_length_le_total s r.1
        rw [hself] at h1
        simp at h1
        omega
      have hpop : totalLen (popHead s r.1) ≤ fuel := by
        rw [totalLen_pop s r.1 hne]
        omega
      simp only [mergeSeq, hm]
      rw [projE_cons]
      by_cases hn : r.1 = n
      · rw [if_pos hn, ih (popHead s r.1) hpop n, popHead_get, if_pos hn.symm, ← hn, hself]
        rfl
      · rw [if_neg hn, ih (popHead s r.1) hpop n, popHead_get, if_neg (Ne.symm hn)]

lemma mergeSeq_chain_lex (fuel : Nat) : ∀ s : GStreams,
    (∀ n, List.Pairwise (· < ·) (s.get n)) →
    List.Chain' lexLt (mergeSeq fuel s) := by
  induction fuel with
  | zero => intro s _; simp [mergeSeq]
  | succ fuel ih =>
    intro s hsort
    cases hm : minCand s with
    | none => simp [mergeSeq, hm]
    | some r =>
      simp only [mergeSeq, hm]
      have hsort2 : ∀ n, List.Pairwise (· < ·) ((popHead s r.1).get n) := by
        intro n
        rw [popHead_get]
        split_ifs
        · exact (hsort r.1).sublist (List.tail_sublist _)
        · exact hsort n
      refine List.chain'_cons'.mpr ⟨?_, ih _ hsort2⟩
      intro b hb
      cases fuel with
      | zero => simp [mergeSeq] at hb
      | succ f2 =>
        cases hm2 : minCand (popHead s r.1) with
        | none => simp [mergeSeq, hm2] at hb
        | some r2 =>
          simp only [mergeSeq, hm2, List.head?_cons, Option.mem_def,
            Option.some.injEq] at hb
          subst hb
          obtain ⟨t2, hself2⟩ := minCand_self _ _ hm2
          by_cases he : r2.1 = r.1
          · rw [he, popHead_get, if_pos rfl] at hself2
            obtain ⟨t, hself⟩ := minCand_self _ _ hm
            rw [hself] at hself2
            simp only [List.tail_cons] at hself2
            have hp := hsort r.1
            rw [hself, hself2] at hp
            have := (List.pairwise_cons.mp hp).1 r2.2 (List.mem_cons_self _ _)
            exact Or.inl this
          · rw [popHead_get, if_neg he] at hself2
            rcases minCand_lex s r hm r2.1 r2.2 t2 hself2 with hlt | ⟨heq, hrk⟩
            · exact Or.inl hlt
            · right
              refine ⟨heq, ?_⟩
              rcases Nat.lt_or_ge (nameRank r.1) (nameRank r2.1) with h' | h'
              · exact h'
              · exact absurd (nameRank_inj _ _ (by omega)) (Ne.symm he)

lemma dcoLoop_chain (fuel : Nat) : ∀ (s : GStreams) (r : GName × Nat),
    minCand s = some r → dcoLoop fuel s r.1 = true →
    List.Chain' nameStep (mergeSeq fuel s) := by
  induction fuel with
  | zero => intro s r _ _; simp [mergeSeq]
  | succ fuel ih =>
    intro s r hm hd
    simp only [mergeSeq, hm]
    simp only [dcoLoop] at hd
    cases hm2 : minCand (popHead s r.1) with
    | none =>
      rw [mergeSeq_nil_of_none _ _ hm2]
      simp
    | some r2 =>
      simp only [hm2] at hd
      split_ifs at hd with hexp
      · have hrec := ih (popHead s r.1) r2 hm2 (by rw [hexp] at hd ⊢; exact hd)
        refine List.chain'_cons'.mpr ⟨?_, hrec⟩
        intro b hb
        cases fuel with
        | zero => simp [mergeSeq] at hb
        | succ f2 =>
          simp only [mergeSeq, hm2, List.head?_cons, Option.mem_def,
            Option.some.injEq] at hb
          subst hb
          exact hexp

lemma dco_chain (s : GStreams) (hs : detect_correct_order s = true) :
    List.Chain' nameStep (mergeSeq (totalLen s) s) := by
  unfold detect_correct_order at hs
  cases hm : minCand s with
  | none => rw [mergeSeq_nil_of_none _ _ hm]; simp
  | some r =>
    rw [hm] at hs
    exact dcoLoop_chain (totalLen s) s r hm hs

lemma projE_cons_pos (n : GName) (v : Nat) (E : List (GName × Nat)) :
    projE n ((n, v) :: E) = v :: projE n E := by
  rw [projE_cons, if_pos rfl]

lemma projE_cons_neg (m n : GName) (v : Nat) (E : List (GName × Nat))
    (h : ¬ m = n) : projE n ((m, v) :: E) = projE n E := by
  rw [projE_cons, if_neg h]

/-- In an extraction sequence whose names follow the cycle
rHS → lTO → lHS → rTO → rHS and whose entries are lexicographically ordered,
every pair of consecutive rHS values has an rTO value strictly between them:
the two lex steps lTO → lHS and rTO → rHS decrease the dict rank, forcing
strict value increases around the intervening rTO entry. -/
lemma between_of_chains_rHS : ∀ (N : Nat) (E : List (GName × Nat)), E.length ≤ N →
    List.Chain' nameStep E → List.Chain' lexLt E →
    chainBetween (projE .rHS E) (projE .rTO E) := by
  intro N
  induction N with
  | zero =>
    intro E hlen _ _
    have hE : E = [] := List.length_eq_zero.mp (by omega)
    subst hE
    intro k hk
    simp [projE_nil] at hk
  | succ N ih =>
    intro E hlen hns hlex
    cases E with
    | nil => intro k hk; simp [projE_nil] at hk
    | cons e0 E1 =>
      obtain ⟨n0, h0⟩ := e0
      by_cases hX : n0 = GName.rHS
      case neg =>
        have hlen1 : E1.length ≤ N := by simp [List.length_cons] at hlen; omega
        have hcb := ih E1 hlen1 hns.tail hlex.tail
        intro k hk
        rw [projE_cons_neg n0 GName.rHS h0 E1 hX] at hk ⊢
        obtain ⟨v, hv, hb1, hb2⟩ := hcb k hk
        exact ⟨v, projE_subset_cons _ _ _ _ hv, hb1, hb2⟩
      case pos =>
        subst hX
        cases E1 with
        | nil =>
          intro k hk
          rw [projE_cons_pos, projE_nil] at hk
          simp at hk
        | cons e1 E2 =>
          obtain ⟨n1, h1⟩ := e1
          have hn1 : n1 = GName.lTO := by
            have := (List.chain'_cons.mp hns).1
            simpa [nameStep, expectedNext] using this
          subst hn1
          cases E2 with
          | nil =>
            intro k hk
            rw [projE_cons_pos,
              projE_cons_neg GName.lTO GName.rHS h1 _ (by decide), projE_nil] at hk
            simp at hk
          | cons e2 E3 =>
            obtain ⟨n2, h2⟩ := e2
            have hn2 : n2 = GName.lHS := by
              have := (List.chain'_cons.mp hns.tail).1
              simpa [nameStep, expectedNext] using this
            subst hn2
            cases E3 with
            | nil =>
              intro k hk
              rw [projE_cons_pos, projE_cons_neg GName.lTO GName.rHS h1 _ (by decide),
                projE_cons_neg GName.lHS GName.rHS h2 _ (by decide), projE_nil] at hk
              simp at hk
            | cons e3 E4 =>
              obtain ⟨n3, h3⟩ := e3
              have hn3 : n3 = GName.rTO := by
                have := (List.chain'_cons.mp hns.tail.tail).1
                simpa [nameStep, expectedNext] using this
              subst hn3
              cases E4 with
              | nil =>
                intro k hk
                rw [projE_cons_pos, projE_cons_neg GName.lTO GName.rHS h1 _ (by decide),
                  projE_cons_neg GName.lHS GName.rHS h2 _ (by decide),
                  projE_cons_neg GName.rTO GName.rHS h3 _ (by decide), projE_nil] at hk
                simp at hk
              | cons e4 E5 =>
                obtain ⟨n4, h4⟩ := e4
                have hn4 : n4 = GName.rHS := by
                  have := (List.chain'_cons.mp hns.tail.tail.tail).1
                  simpa [nameStep, expectedNext] using this
                subst hn4
                have l01 : lexLt (GName.rHS, h0) (GName.lTO, h1) :=
                  (List.chain'_cons.mp hlex).1
                have l12 : lexLt (GName.lTO, h1) (GName.lHS, h2) :=
                  (List.chain'_cons.mp hlex.tail).1
                have l23 : lexLt (GName.lHS, h2) (GName.rTO, h3) :=
                  (List.chain'_cons.mp hlex.tail.tail).1
                have l34 : lexLt (GName.rTO, h3) (GName.rHS, h4) :=
                  (List.chain'_cons.mp hlex.tail.tail.tail).1
                have v01 : h0 ≤ h1 := by rcases l01 with h | ⟨h, _⟩ <;> omega
                have v12 : h1 < h2 := by
                  rcases l12 with h | ⟨h, hr⟩
                  · exact h
                  · simp [nameRank] at hr
                have v23 : h2 < h3 := by
                  rcases l23 with h | ⟨h, hr⟩
                  · exact h
                  · simp [nameRank] at hr
                have v34 : h3 < h4 := by
                  rcases l34 with h | ⟨h, hr⟩
                  · exact h
                  · simp [nameRank] at hr
                have hxs : projE GName.rHS ((GName.rHS, h0) :: (GName.lTO, h1) ::
                    (GName.lHS, h2) :: (GName.rTO, h3) :: (GName.rHS, h4) :: E5)
                    = h0 :: h4 :: projE GName.rHS E5 := by
                  rw [projE_cons_pos, projE_cons_neg GName.lTO GName.rHS h1 _ (by decide),
                    projE_cons_neg GName.lHS GName.rHS h2 _ (by decide),
                    projE_cons_neg GName.rTO GName.rHS h3 _ (by decide), projE_cons_pos]
                have hys : projE GName.rTO ((GName.rHS, h0) :: (GName.lTO, h1) ::
                    (GName.lHS, h2) :: (GName.rTO, h3) :: (GName.rHS, h4) :: E5)
                    = h3 :: projE GName.rTO E5 := by
                  rw [projE_cons_neg GName.rHS GName.rTO h0 _ (by decide),
                    projE_cons_neg GName.lTO GName.rTO h1 _ (by decide),
                    projE_cons_neg GName.lHS GName.rTO h2 _ (by decide), projE_cons_pos,
                    projE_cons_neg GName.rHS GName.rTO h4 _ (by decide)]
                intro k hk
                rw [hxs] at hk ⊢
                rw [hys]
                cases k with
                | zero =>
                  refine ⟨h3, List.mem_cons_self _ _, ?_, ?_⟩
                  · simp only [List.getD_cons_zero]
                    omega
                  · simp only [List.getD_cons_succ, List.getD_cons_zero]
                    omega
                | succ k2 =>
                  have hlen5 : E5.length + 1 ≤ N := by
                    simp [List.length_cons] at hlen
                    omega
                  have hrec := ih ((GName.rHS, h4) :: E5) (by simpa using hlen5)
                    hns.tail.tail.tail.tail hlex.tail.tail.tail.tail
                  have hxs4 : projE GName.rHS ((GName.rHS, h4) :: E5)
                      = h4 :: projE GName.rHS E5 := projE_cons_pos _ _ _
                  have hys4 : projE GName.rTO ((GName.rHS, h4) :: E5)
                      = projE GName.rTO E5 :=
                    projE_cons_neg GName.rHS GName.rTO h4 _ (by decide)
                  have hk2 : k2 + 1 < (projE GName.rHS ((GName.rHS, h4) :: E5)).length := by
                    rw [hxs4]
                    simp only [List.length_cons] at hk ⊢
                    omega
                  obtain ⟨v, hv, hb1, hb2⟩ := hrec k2 hk2
                  rw [hxs4] at hb1 hb2
                  rw [hys4] at hv
                  refine ⟨v, List.mem_cons_of_mem _ hv, ?_, ?_⟩
                  · simpa [List.getD_cons_succ] using hb1
                  · simpa [List.getD_cons_succ] using hb2

/-- The left-leg counterpart: between consecutive lHS values there is an lTO
value, strictly; here the lex steps rTO → rHS and lTO → lHS decrease the
dict rank. -/
lemma between_of_chains_lHS : ∀ (N : Nat) (E : List (GName × Nat)), E.length ≤ N →
    List.Chain' nameStep E → List.Chain' lexLt E →
    chainBetween (projE .lHS E) (projE .lTO E) := by
  intro N
  induction N with
  | zero =>
    intro E hlen _ _
    have hE : E = [] := List.length_eq_zero.mp (by omega)
    subst hE
    intro k hk
    simp [projE_nil] at hk
  | succ N ih =>
    intro E hlen hns hlex
    cases E with
    | nil => intro k hk; simp [projE_nil] at hk
    | cons e0 E1 =>
      obtain ⟨n0, h0⟩ := e0
      by_cases hX : n0 = GName.lHS
      case neg =>
        have hlen1 : E1.length ≤ N := by simp [List.length_cons] at hlen; omega
        have hcb := ih E1 hlen1 hns.tail hlex.tail
        intro k hk
        rw [projE_cons_neg n0 GName.lHS h0 E1 hX] at hk ⊢
        obtain ⟨v, hv, hb1, hb2⟩ := hcb k hk
        exact ⟨v, projE_subset_cons _ _ _ _ hv, hb1, hb2⟩
      case pos =>
        subst hX
        cases E1 with
        | nil =>
          intro k hk
          rw [projE_cons_pos, projE_nil] at hk
          simp at hk
        | cons e1 E2 =>
          obtain ⟨n1, h1⟩ := e1
          have hn1 : n1 = GName.rTO := by
            have := (List.chain'_cons.mp hns).1
            simpa [nameStep, expectedNext] using this
          subst hn1
          cases E2 with
          | nil =>
            intro k hk
            rw [projE_cons_pos,
              projE_cons_neg GName.rTO GName.lHS h1 _ (by decide), projE_nil] at hk
            simp at hk
          | cons e2 E3 =>
            obtain ⟨n2, h2⟩ := e2
            have hn2 : n2 = GName.rHS := by
              have := (List.chain'_cons.mp hns.tail).1
              simpa [nameStep, expectedNext] using this
            subst hn2
            cases E3 with
            | nil =>
              intro k hk
              rw [projE_cons_pos, projE_cons_neg GName.rTO GName.lHS h1 _ (by decide),
                projE_cons_neg GName.rHS GName.lHS h2 _ (by decide), projE_nil] at hk
              simp at hk
            | cons e3 E4 =>
              obtain ⟨n3, h3⟩ := e3
              have hn3 : n3 = GName.lTO := by
                have := (List.chain'_cons.mp hns.tail.tail).1
                simpa [nameStep, expectedNext] using this
              subst hn3
              cases E4 with
              | nil =>
                intro k hk
                rw [projE_cons_pos, projE_cons_neg GName.rTO GName.lHS h1 _ (by decide),
                  projE_cons_neg GName.rHS GName.lHS h2 _ (by decide),
                  projE_cons_neg GName.lTO GName.lHS h3 _ (by decide), projE_nil] at hk
                simp at hk
              | cons e4 E5 =>
                obtain ⟨n4, h4⟩ := e4
                have hn4 : n4 = GName.lHS := by
                  have := (List.chain'_cons.mp hns.tail.tail.tail).1
                  simpa [nameStep, expectedNext] using this
                subst hn4
                have l01 : lexLt (GName.lHS, h0) (GName.rTO, h1) :=
                  (List.chain'_cons.mp hlex).1
                have l12 : lexLt (GName.rTO, h1) (GName.rHS, h2) :=
                  (List.chain'_cons.mp hlex.tail).1
                have l23 : lexLt (GName.rHS, h2) (GName.lTO, h3) :=
                  (List.chain'_cons.mp hlex.tail.tail).1
                have l34 : lexLt (GName.lTO, h3) (GName.lHS, h4) :=
                  (List.chain'_cons.mp hlex.tail.tail.tail).1
                have v01 : h0 < h1 := by
                  rcases l01 with h | ⟨h, hr⟩
                  · exact h
                  · simp [nameRank] at hr
                have v12 : h1 < h2 := by
                  rcases l12 with h | ⟨h, hr⟩
                  · exact h
                  · simp [nameRank] at hr
                have v23 : h2 ≤ h3 := by rcases l23 with h | ⟨h, _⟩ <;> omega
                have v34 : h3 < h4 := by
                  rcases l34 with h | ⟨h, hr⟩
                  · exact h
                  · simp [nameRank] at hr
                have hxs : projE GName.lHS ((GName.lHS, h0) :: (GName.rTO, h1) ::
                    (GName.rHS, h2) :: (GName.lTO, h3) :: (GName.lHS, h4) :: E5)
                    = h0 :: h4 :: projE GName.lHS E5 := by
                  rw [projE_cons_pos, projE_cons_neg GName.rTO GName.lHS h1 _ (by decide),
                    projE_cons_neg GName.rHS GName.lHS h2 _ (by decide),
                    projE_cons_neg GName.lTO GName.lHS h3 _ (by decide), projE_cons_pos]
                have hys : projE GName.lTO ((GName.lHS, h0) :: (GName.rTO, h1) ::
                    (GName.rHS, h2) :: (GName.lTO, h3) :: (GName.lHS, h4) :: E5)
                    = h3 :: projE GName.lTO E5 := by
                  rw [projE_cons_neg GName.lHS GName.lTO h0 _ (by decide),
                    projE_cons_neg GName.rTO GName.lTO h1 _ (by decide),
                    projE_cons_neg GName.rHS GName.lTO h2 _ (by decide), projE_cons_pos,
                    projE_cons_neg GName.lHS GName.lTO h4 _ (by decide)]
                intro k hk
                rw [hxs] at hk ⊢
                rw [hys]
                cases k with
                | zero =>
                  refine ⟨h3, List.mem_cons_self _ _, ?_, ?_⟩
                  · simp only [List.getD_cons_zero]
                    omega
                  · simp only [List.getD_cons_succ, List.getD_cons_zero]
                    omega
                | succ k2 =>
                  have hlen5 : E5.length + 1 ≤ N := by
                    simp [List.length_cons] at hlen
                    omega
                  have hrec := ih ((GName.lHS, h4) :: E5) (by simpa using hlen5)
                    hns.tail.tail.tail.tail hlex.tail.tail.tail.tail
                  have hxs4 : projE GName.lHS ((GName.lHS, h4) :: E5)
                      = h4 :: projE GName.lHS E5 := projE_cons_pos _ _ _
                  have hys4 : projE GName.lTO ((GName.lHS, h4) :: E5)
                      = projE GName.lTO E5 :=
                    projE_cons_neg GName.lHS GName.lTO h4 _ (by decide)
                  have hk2 : k2 + 1 < (projE GName.lHS ((GName.lHS, h4) :: E5)).length := by
                    rw [hxs4]
                    simp only [List.length_cons] at hk ⊢
                    omega
                  obtain ⟨v, hv, hb1, hb2⟩ := hrec k2 hk2
                  rw [hxs4] at hb1 hb2
                  rw [hys4] at hv
                  refine ⟨v, List.mem_cons_of_mem _ hv, ?_, ?_⟩
                  · simpa [List.getD_cons_succ] using hb1
                  · simpa [List.getD_cons_succ] using hb2

/-- A passing order check on sorted streams guarantees an rTO strictly
between any two consecutive rHS events. -/
lemma order_between_r (s : GStreams) (hsort : ∀ n, List.Pairwise (· < ·) (s.get n))
    (hdco : detect_correct_order s = true) :
    chainBetween (s.get .rHS) (s.get .rTO) := by
  have hproj := projE_merge (totalLen s) s le_rfl
  have h := between_of_chains_rHS (mergeSeq (totalLen s) s).length _ le_rfl
    (dco_chain s hdco) (mergeSeq_chain_lex (totalLen s) s hsort)
  rwa [hproj, hproj] at h

/-- Left-leg version of order_between_r. -/
lemma order_between_l (s : GStreams) (hsort : ∀ n, List.Pairwise (· < ·) (s.get n))
    (hdco : detect_correct_order s = true) :
    chainBetween (s.get .lHS) (s.get .lTO) := by
  have hproj := projE_merge (totalLen s) s le_rfl
  have h := between_of_chains_lHS (mergeSeq (totalLen s) s).length _ le_rfl
    (dco_chain s hdco) (mergeSeq_chain_lex (totalLen s) s hsort)
  rwa [hproj, hproj] at h

lemma exceptBind_ok {α β : Type} (a : α) (f : α → Except String β) :
    (Except.ok a >>= f) = f a := rfl

lemma exceptBind_error {α β : Type} (e : String) (f : α → Except String β) :
    ((Except.error e : Except String α) >>= f) = Except.error e := rfl

lemma findPeaksProm_sorted (x : Sig) (prom : ℚ) :
    List.Pairwise (· < ·) (findPeaksProm x prom) :=
  (localMaxima_sorted x).sublist (List.filter_sublist _)

lemma detect_gait_peaks_get_sorted (rc lc rt lt : Sig) (p : ℚ) (n : GName) :
    List.Pairwise (· < ·) ((detect_gait_peaks rc lc rt lt p).get n) := by
  cases n
  · exact findPeaksProm_sorted rc p
  · exact findPeaksProm_sorted (rt.map (fun v => -v)) p
  · exact findPeaksProm_sorted lc p
  · exact findPeaksProm_sorted (lt.map (fun v => -v)) p

lemma gaitDetectLoop_ok (rc lc rt lt : Sig) : ∀ (ps : List ℚ) (s : GStreams),
    gaitDetectLoop rc lc rt lt ps = .ok s →
    detect_correct_order s = true ∧ ∃ p, s = detect_gait_peaks rc lc rt lt p := by
  intro ps
  induction ps with
  | nil => intro s h; exact Except.noConfusion h
  | cons p rest ih =>
    intro s h
    simp only [gaitDetectLoop] at h
    split_ifs at h with hd
    · cases h
      exact ⟨hd, p, rfl⟩
    · cases rest with
      | nil => exact Except.noConfusion h
      | cons q t => exact ih s h

lemma findInWindow_some (l : List Nat) (a b : ℤ) (w : Nat)
    (h : findInWindow l a b = some w) : a < (w : ℤ) ∧ (w : ℤ) < b := by
  unfold findInWindow at h
  have h1 := List.find?_some h
  exact of_decide_eq_true h1

lemma findInWindow_exists (l : List Nat) (a b : ℤ) (v : Nat) (hv : v ∈ l)
    (h1 : a < (v : ℤ)) (h2 : (v : ℤ) < b) : ∃ w, findInWindow l a b = some w := by
  unfold findInWindow
  cases hf : l.reverse.find? (fun (u : ℕ) => decide (a < (u : ℤ) ∧ (u : ℤ) < b)) with
  | some w => exact ⟨w, rfl⟩
  | none =>
    rw [List.find?_eq_none] at hf
    have h3 := hf v (List.mem_reverse.mpr hv)
    simp [h1, h2] at h3

lemma pairwise_getD_lt (l : List Nat) (hp : List.Pairwise (· < ·) l) (k : Nat)
    (hk : k + 1 < l.length) : l.getD k 0 < l.getD (k+1) 0 := by
  rw [List.getD_eq_getElem l 0 (by omega), List.getD_eq_getElem l 0 hk]
  exact List.pairwise_iff_getElem.mp hp k (k+1) (by omega) hk (by omega)

lemma gaitNEff_le (L : ℕ) (n : ℤ) : gaitNEff L n ≤ (L : ℤ) - 1 := by
  simp only [gaitNEff]
  split_ifs <;> omega

lemma buildRow_eq (hsIps toIps hsCont toCont : List Nat) (L i : Nat) :
    buildRow hsIps toIps hsCont toCont L i =
      match findInWindow toCont ((hsIps.getD (L - i - 2) 0 : ℕ) : ℤ)
              ((hsIps.getD (L - i - 1) 0 : ℕ) : ℤ),
            findInWindow hsCont ((hsIps.getD (L - i - 2) 0 : ℕ) : ℤ)
              ((hsIps.getD (L - i - 1) 0 : ℕ) : ℤ) with
      | some tcv, some hcv =>
        ((((hsIps.getD (L - i - 2) 0 : ℕ) : ℤ),
          ((findInWindow toIps ((hsIps.getD (L - i - 2) 0 : ℕ) : ℤ)
              ((hsIps.getD (L - i - 1) 0 : ℕ) : ℤ)).map (fun v => (v : ℤ))).getD 0,
          ((hsIps.getD (L - i - 1) 0 : ℕ) : ℤ)), ((tcv : ℤ), (hcv : ℤ)))
      | _, _ => ((-1, -1, -1), (-1, -1)) := rfl

lemma buildRow_ok (hsIps toIps hsCont toCont : List Nat) (i : Nat)
    (hsorted : List.Pairwise (· < ·) hsIps)
    (hbetween : chainBetween hsIps toIps)
    (hik : i + 2 ≤ hsIps.length)
    (hnd : rowDropped (buildRow hsIps toIps hsCont toCont hsIps.length i) = false) :
    cyclePairOk (buildRow hsIps toIps hsCont toCont hsIps.length i).1
      (buildRow hsIps toIps hsCont toCont hsIps.length i).2 := by
  have hk1 : hsIps.length - i - 2 + 1 = hsIps.length - i - 1 := by omega
  have hklt : hsIps.length - i - 2 + 1 < hsIps.length := by omega
  obtain ⟨v, hv, hv1, hv2⟩ := hbetween (hsIps.length - i - 2) hklt
  rw [hk1] at hv2
  obtain ⟨w, hw⟩ := findInWindow_exists toIps
      ((hsIps.getD (hsIps.length - i - 2) 0 : ℕ) : ℤ)
      ((hsIps.getD (hsIps.length - i - 1) 0 : ℕ) : ℤ) v hv
      (by exact_mod_cast hv1) (by exact_mod_cast hv2)
  obtain ⟨hw1, hw2⟩ := findInWindow_some _ _ _ _ hw
  have hbe := buildRow_eq hsIps toIps hsCont toCont hsIps.length i
  split at hbe
  · rename_i tcv hcv htc hhc
    obtain ⟨htc1, htc2⟩ := findInWindow_some _ _ _ _ htc
    obtain ⟨hhc1, hhc2⟩ := findInWindow_some _ _ _ _ hhc
    rw [hw] at hbe
    rw [hbe]
    exact ⟨hw1, hw2, htc1, htc2, hhc1, hhc2⟩
  · rw [hbe] at hnd
    simp [rowDropped] at hnd

lemma gaitKept_mem (hsIps toIps hsCont toCont : List Nat) (nEff : ℕ) (r : GaitRow)
    (hr : r ∈ gaitKept hsIps toIps hsCont toCont nEff) :
    ∃ i, i < nEff ∧ r = buildRow hsIps toIps hsCont toCont hsIps.length i ∧
      rowDropped r = false := by
  unfold gaitKept at hr
  obtain ⟨hmem, hkeep⟩ := List.mem_filter.mp hr
  unfold gaitRows at hmem
  obtain ⟨i, hi, hbi⟩ := List.mem_map.mp hmem
  exact ⟨i, List.mem_range.mp hi, hbi.symm, by simpa using hkeep⟩

lemma segment_core_ok (hsIps toIps hsCont toCont : List Nat) (time : Sig) (n : ℤ)
    (leg : String) (ev : GaitEvents)
    (h : segment_core hsIps toIps hsCont toCont time n leg = .ok ev) :
    1 ≤ gaitNEff hsIps.length n ∧
    gaitKept hsIps toIps hsCont toCont (gaitNEff hsIps.length n).toNat ≠ [] ∧
    ev.ipsilateralIdx = (gaitKept hsIps toIps hsCont toCont
      (gaitNEff hsIps.length n).toNat).map (fun r => r.1) ∧
    ev.contralateralIdx = (gaitKept hsIps toIps hsCont toCont
      (gaitNEff hsIps.length n).toNat).map (fun r => r.2) := by
  simp only [segment_core] at h
  split_ifs at h with h1 h2 h3
  injection h with h4
  subst h4
  refine ⟨by omega, ?_, rfl, rfl⟩
  intro hemp
  exact h3 (by rw [hemp]; rfl)

lemma getD_map {α β : Type} (f : α → β) (l : List α) (j : Nat) (d : α) :
    (l.map f).getD j (f d) = f (l.getD j d) := by
  induction l generalizing j with
  | nil => simp
  | cons a t ih => cases j <;> simp [ih]

lemma segment_core_inv (hsIps toIps hsCont toCont : List Nat) (time : Sig) (n : ℤ)
    (leg : String)
    (hsorted : List.Pairwise (· < ·) hsIps)
    (hbetween : chainBetween hsIps toIps) (ev : GaitEvents)
    (h : segment_core hsIps toIps hsCont toCont time n leg = .ok ev) :
    ∀ j, j < ev.ipsilateralIdx.length →
      cyclePairOk (ev.ipsilateralIdx.getD j (0, 0, 0))
        (ev.contralateralIdx.getD j (0, 0)) := by
  obtain ⟨h1le, hne, hips, hcont⟩ :=
    segment_core_ok hsIps toIps hsCont toCont time n leg ev h
  have hle := gaitNEff_le hsIps.length n
  intro j hj
  rw [hips] at hj
  have hjk : j < (gaitKept hsIps toIps hsCont toCont
      (gaitNEff hsIps.length n).toNat).length := by simpa using hj
  have e1 : ((gaitKept hsIps toIps hsCont toCont
          (gaitNEff hsIps.length n).toNat).map (fun r => r.1)).getD j (0, 0, 0)
      = ((gaitKept hsIps toIps hsCont toCont
          (gaitNEff hsIps.length n).toNat).getD j ((0, 0, 0), (0, 0))).1 :=
    getD_map (fun r : GaitRow => r.1) _ j ((0, 0, 0), (0, 0))
  have e2 : ((gaitKept hsIps toIps hsCont toCont
          (gaitNEff hsIps.length n).toNat).map (fun r => r.2)).getD j (0, 0)
      = ((gaitKept hsIps toIps hsCont toCont
          (gaitNEff hsIps.length n).toNat).getD j ((0, 0, 0), (0, 0))).2 :=
    getD_map (fun r : GaitRow => r.2) _ j ((0, 0, 0), (0, 0))
  rw [hips, hcont, e1, e2]
  have hrmem : (gaitKept hsIps toIps hsCont toCont
      (gaitNEff hsIps.length n).toNat).getD j ((0, 0, 0), (0, 0))
      ∈ gaitKept hsIps toIps hsCont toCont (gaitNEff hsIps.length n).toNat := by
    rw [List.getD_eq_getElem _ _ hjk]
    exact List.getElem_mem hjk
  obtain ⟨i, hi, hri, hnd⟩ := gaitKept_mem hsIps toIps hsCont toCont _ _ hrmem
  rw [hri] at hnd ⊢
  exact buildRow_ok hsIps toIps hsCont toCont i hsorted hbetween (by omega) hnd

lemma segment_walking_signals_inv (rc lc rt lt time : Sig) (n : ℤ) (leg : String)
    (ev : GaitEvents) (h : segment_walking_signals rc lc rt lt time n leg = .ok ev) :
    ∀ j, j < ev.ipsilateralIdx.length →
      cyclePairOk (ev.ipsilateralIdx.getD j (0, 0, 0))
        (ev.contralateralIdx.getD j (0, 0)) := by
  unfold segment_walking_signals at h
  cases hdl : gaitDetectLoop rc lc rt lt prominenceCandidates with
  | error e =>
    rw [hdl, exceptBind_error] at h
    exact Except.noConfusion h
  | ok s =>
    obtain ⟨hdco, p, hp⟩ := gaitDetectLoop_ok rc lc rt lt _ s hdl
    have hsort : ∀ m, List.Pairwise (· < ·) (s.get m) := by
      intro m
      rw [hp]
      exact detect_gait_peaks_get_sorted rc lc rt lt p m
    have hbr := order_between_r s hsort hdco
    have hbl := order_between_l s hsort hdco
    simp only [hdl, exceptBind_ok] at h
    by_cases hauto : leg = "auto"
    · rw [if_pos hauto] at h
      cases hrl : s.rHS.getLast? with
      | none =>
        cases hll : s.lHS.getLast? with
        | none =>
          simp only [hrl, hll, exceptBind_error] at h
          exact Except.noConfusion h
        | some l =>
          simp only [hrl, hll, exceptBind_error] at h
          exact Except.noConfusion h
      | some r =>
        cases hll : s.lHS.getLast? with
        | none =>
          simp only [hrl, hll, exceptBind_error] at h
          exact Except.noConfusion h
        | some l =>
          simp only [hrl, hll, exceptBind_ok] at h
          by_cases hlr : l < r
          · rw [if_pos hlr, if_pos rfl] at h
            exact segment_core_inv s.rHS s.rTO s.lHS s.lTO time n "r"
              (hsort .rHS) hbr ev h
          · rw [if_neg hlr, if_neg (show ("l" : String) ≠ "r" by decide),
              if_pos rfl] at h
            exact segment_core_inv s.lHS s.lTO s.rHS s.rTO time n "l"
              (hsort .lHS) hbl ev h
    · rw [if_neg hauto, exceptBind_ok] at h
      by_cases hr : leg = "r"
      · rw [if_pos hr] at h
        exact segment_core_inv s.rHS s.rTO s.lHS s.lTO time n "r"
          (hsort .rHS) hbr ev h
      · rw [if_neg hr] at h
        by_cases hl : leg = "l"
        · rw [if_pos hl] at h
          exact segment_core_inv s.lHS s.lTO s.rHS s.rTO time n "l"
            (hsort .lHS) hbl ev h
        · rw [if_neg hl] at h
          exact Except.noConfusion h

/-- C2: every cycle event set returned by segment_walking has, in each
retained cycle, strictly increasing ipsilateral indices (heel strike,
toe-off, heel strike) and both contralateral events (toe-off, heel strike)
strictly between the two ipsilateral heel strikes. -/
theorem C2_cycle_event_invariant (sqrtF : ℚ → ℚ) (m : MarkerSet) (n : ℤ)
    (leg : String) (ev : GaitEvents) (h : segment_walking sqrtF m n leg = .ok ev) :
    ∀ j, j < ev.ipsilateralIdx.length →
      cyclePairOk (ev.ipsilateralIdx.getD j (0, 0, 0))
        (ev.contralateralIdx.getD j (0, 0)) := by
  unfold segment_walking at h
  exact segment_walking_signals_inv _ _ _ _ m.time n leg ev h

theorem C2_cycle_event_invariant_witness :
    cyclePairOk (evSegW.ipsilateralIdx.getD 0 (0, 0, 0))
      (evSegW.contralateralIdx.getD 0 (0, 0)) :=
  C2_cycle_event_invariant sqrtOneW markersW (-1) "r" evSegW
    (by with_unfolding_all decide) 0 (by decide)

/-- C5: a requested count of -1 or more than the available cycles is reduced
to all available cycles; a returned event set consists exactly of the
surviving (not dropped) rows; segmentation succeeds if and only if at least
one cycle survives the contralateral-window filter. -/
theorem C5_all_available_and_drop (hsIps toIps hsCont toCont : List Nat)
    (time : Sig) (n : ℤ) (leg : String) :
    ((n = -1 ∨ (hsIps.length : ℤ) - 1 < n) →
      segment_core hsIps toIps hsCont toCont time n leg
        = segment_core hsIps toIps hsCont toCont time ((hsIps.length : ℤ) - 1) leg) ∧
    (∀ ev, segment_core hsIps toIps hsCont toCont time n leg = .ok ev →
      ev.ipsilateralIdx = (gaitKept hsIps toIps hsCont toCont
        (gaitNEff hsIps.length n).toNat).map (fun r => r.1)) ∧
    (isOkE (segment_core hsIps toIps hsCont toCont time n leg) = true ↔
      gaitKept hsIps toIps hsCont toCont (gaitNEff hsIps.length n).toNat ≠ []) := by
  refine ⟨?_, ?_, ?_, ?_⟩
  · intro hcase
    have hne : gaitNEff hsIps.length n = gaitNEff hsIps.length ((hsIps.length : ℤ) - 1) := by
      simp only [gaitNEff]
      rcases hcase with rfl | hgt <;> split_ifs <;> omega
    simp only [segment_core, hne]
  · intro ev h
    exact (segment_core_ok hsIps toIps hsCont toCont time n leg ev h).2.2.1
  · intro hok
    cases hsc : segment_core hsIps toIps hsCont toCont time n leg with
    | error e => rw [hsc] at hok; exact Bool.noConfusion hok
    | ok ev => exact (segment_core_ok hsIps toIps hsCont toCont time n leg ev hsc).2.1
  · intro hne
    have h1 : 1 ≤ gaitNEff hsIps.length n := by
      rcases Nat.eq_zero_or_pos (gaitNEff hsIps.length n).toNat with h0 | h0
      · exact absurd (by unfold gaitKept gaitRows; rw [h0]; rfl) hne
      · omega
    simp only [segment_core]
    rw [if_neg (show ¬ gaitNEff hsIps.length n < 0 by omega),
      if_neg (show ¬ gaitNEff hsIps.length n < 1 by omega),
      if_neg (show ¬ (gaitKept hsIps toIps hsCont toCont
        (gaitNEff hsIps.length n).toNat).isEmpty = true by
          simpa using hne)]
    rfl

theorem C5_all_available_and_drop_witness :
    segment_core hsIpsW toIpsW hsContW toContW sigTimeW (-1) "r"
      = segment_core hsIpsW toIpsW hsContW toContW sigTimeW ((hsIpsW.length : ℤ) - 1) "r"
    ∧ isOkE (segment_core hsIpsW toIpsW hsContW toContW sigTimeW (-1) "r") = true :=
  ⟨(C5_all_available_and_drop hsIpsW toIpsW hsContW toContW sigTimeW (-1) "r").1
      (Or.inl rfl),
   (C5_all_available_and_drop hsIpsW toIpsW hsContW toContW sigTimeW (-1) "r").2.2.mpr
      (by with_unfolding_all decide)⟩

end OpenCap
